import Mathlib

/-!
Verification development for the trage-agent-go repository.

This file gives a shallow embedding, in Lean 4, of the parts of the Go
source that the checked properties talk about:

* `pkg/llm/types.go` — message / tool data model, `IsRetryableError`,
  `RetryConfig`;
* `pkg/llm/retry_wrapper.go` — `RetryableLLMClient.Chat` and
  `calculateDelay`;
* the response cache (`MemoryCache`, `CachedLLMClient`,
  `generateCacheKey`);
* the agent loop (`BaseAgent.AddExecutionStep`, `TraeAgent.ExecuteTask`);
* `pkg/tools/task_done_tool.go` — `ToolExecutionTracker`.

Machine floats (`float64`) are modelled by exact rationals `ℚ`,
`time.Duration` (int64 nanoseconds) by `Int`, wall-clock instants by
integer nanosecond counts, and Go errors by explicit inductive values.
Go maps that the code serializes are modelled as association lists in
sorted key order (Go's `json.Marshal` sorts map keys).
-/

namespace Trage

/-- JSON-like value domain used for `map[string]interface{}` fields
(`arguments`, `metadata`, `parameters`).  Objects are association lists;
a Go map corresponds to the list sorted strictly by key. -/
inductive Json where
  | null : Json
  | bool (b : Bool) : Json
  | num (n : Int) : Json
  | str (s : String) : Json
  | arr (xs : List Json) : Json
  | obj (fs : List (String × Json)) : Json
deriving Repr

/-- `strings.Contains` from the Go standard library: `sub` occurs as a
contiguous substring of `s`. -/
def strContains (s sub : String) : Bool :=
  go s.toList sub.toList
where
  go : List Char → List Char → Bool
    | s, sub =>
      sub.isPrefixOf s ||
        match s with
        | [] => false
        | _ :: cs => go cs sub

/-- `llm.Error` from `pkg/llm/types.go` (the `Type` field is called
`etype` here because `Type` is reserved in Lean). -/
structure LLMError where
  etype : String
  code : String
  message : String
  param : String
deriving Repr, DecidableEq

/-- A Go `error` value as seen by the retry wrapper: either a typed
`*llm.Error` or some other error carrying only a message. -/
inductive GoError where
  | llm (e : LLMError) : GoError
  | generic (msg : String) : GoError
deriving Repr, DecidableEq

/-- The `Error()` method: `*llm.Error` returns its `Message`; a generic
error returns its own message. -/
def GoError.message : GoError → String
  | .llm e => e.message
  | .generic m => m

/-- `IsRetryableError` from `pkg/llm/types.go` lines 290–324: the four
listed type tags are non-retryable; independently of the type tag, an
error whose message contains one of three fixed substrings is also
non-retryable; everything else is retryable. -/
def IsRetryableError (err : GoError) : Bool :=
  let typedNonRetryable :=
    match err with
    | .llm e =>
        e.etype == "invalid_request" || e.etype == "authentication_error" ||
        e.etype == "permission_error" || e.etype == "quota_exceeded"
    | .generic _ => false
  if typedNonRetryable then false
  else
    let errMsg := err.message
    if strContains errMsg "invalid api key" ||
        strContains errMsg "authentication failed" ||
        strContains errMsg "permission denied" then false
    else true

/-- `llm.RetryConfig`: delays are `time.Duration` = int64 nanoseconds,
`BackoffRate` is a `float64`, modelled exactly as a rational. -/
structure RetryConfig where
  maxRetries : Nat
  baseDelay : Int
  maxDelay : Int
  backoffRate : ℚ
deriving Repr

/-- `DefaultRetryConfig` from `pkg/llm/types.go`. -/
def DefaultRetryConfig : RetryConfig :=
  { maxRetries := 3
    baseDelay := 1000000000
    maxDelay := 30000000000
    backoffRate := 2 }

/-- Truncation of a rational toward zero, Go's `time.Duration(x)`
conversion from `float64`. -/
def durationOfRat (q : ℚ) : Int :=
  if 0 ≤ q then Int.floor q else -Int.floor (-q)

/-- `RetryableLLMClient.calculateDelay` from `pkg/llm/retry_wrapper.go`
lines 81–95: exponential backoff, then `delay += (delay*0.1) *
(float64(now.UnixNano()) / float64(time.Second))`, then a cap at
`MaxDelay`, then conversion back to `time.Duration`. -/
def calculateDelay (cfg : RetryConfig) (attempt : Nat) (nowUnixNano : Int) : Int :=
  let delay : ℚ := (cfg.baseDelay : ℚ) * cfg.backoffRate ^ attempt
  let jitter : ℚ := delay * (1 / 10)
  let delay : ℚ := delay + jitter * ((nowUnixNano : ℚ) / 1000000000)
  let delay : ℚ := if delay > (cfg.maxDelay : ℚ) then (cfg.maxDelay : ℚ) else delay
  durationOfRat delay

/-- The jitter term the comment in `calculateDelay` promises: a value
within ±10% of the un-jittered exponential-backoff delay.  (Used only to
state how far the implementation strays from it.) -/
def backoffWithoutJitter (cfg : RetryConfig) (attempt : Nat) : ℚ :=
  (cfg.baseDelay : ℚ) * cfg.backoffRate ^ attempt

/-- Result of `RetryableLLMClient.Chat`, mirroring the `fmt.Errorf`
wrappers in `pkg/llm/retry_wrapper.go`. -/
inductive RetryError where
  | nonRetryable (e : GoError) : RetryError
  | maxRetriesExceeded (e : GoError) : RetryError
  | contextCancelled : RetryError
  | unexpectedExit (last : Option GoError) : RetryError
deriving Repr, DecidableEq

/-- `llm.ToolCallFunction`: the call name plus its
`map[string]interface{}` arguments, as a key-sorted association list. -/
structure ToolCallFunction where
  name : String
  arguments : List (String × Json)
deriving Repr

/-- `llm.ToolCall`. -/
structure ToolCall where
  id : String
  ctype : String
  function : ToolCallFunction
deriving Repr

/-- `llm.LLMMessage`.  `omitempty` fields keep their Go zero values
(`""` / `[]`) when absent. -/
structure LLMMessage where
  role : String
  content : String
  name : String
  toolCalls : List ToolCall
  toolCallID : String
  metadata : List (String × Json)
deriving Repr

/-- `llm.ToolFunction` (schema of one tool). -/
structure ToolFunction where
  name : String
  description : String
  parameters : List (String × Json)
deriving Repr

/-- `llm.Tool` (tool schema entry handed to the model). -/
structure ToolS where
  ttype : String
  function : ToolFunction
deriving Repr

/-- One underlying gateway: attempt number ↦ outcome.  This stands for
the wrapped `client.Chat` call, whose arguments are fixed for the whole
retry loop. -/
def Gateway := Nat → Except GoError LLMMessage

/-- Body of the `for attempt := 0; attempt <= MaxRetries; attempt++`
loop of `RetryableLLMClient.Chat` (`pkg/llm/retry_wrapper.go` lines
33–75).  `fuel` counts the loop iterations still allowed by the loop
condition (initially `MaxRetries + 1`), so running out of fuel is
exactly the (dead) fall-through return at line 77.  `cancelled n` tells
whether the per-attempt 120-second context fires before `time.After
(delay)` during the wait that follows attempt `n`.  The second
component counts underlying `client.Chat` invocations. -/
def retryChatAux (cfg : RetryConfig) (client : Gateway) (cancelled : Nat → Bool) :
    Nat → Nat → Option GoError → Except RetryError LLMMessage × Nat
  | 0, _, last => (.error (.unexpectedExit last), 0)
  | fuel + 1, attempt, _ =>
    match client attempt with
    | .ok response => (.ok response, 1)
    | .error lastErr =>
      if !IsRetryableError lastErr then
        (.error (.nonRetryable lastErr), 1)
      else if attempt = cfg.maxRetries then
        (.error (.maxRetriesExceeded lastErr), 1)
      else if cancelled attempt then
        (.error .contextCancelled, 1)
      else
        let r := retryChatAux cfg client cancelled fuel (attempt + 1) (some lastErr)
        (r.1, r.2 + 1)

/-- `RetryableLLMClient.Chat`: run the retry loop from attempt 0 with
the loop bound `MaxRetries + 1`.  Returns the outcome together with the
number of underlying attempts performed. -/
def retryChat (cfg : RetryConfig) (client : Gateway) (cancelled : Nat → Bool) :
    Except RetryError LLMMessage × Nat :=
  retryChatAux cfg client cancelled (cfg.maxRetries + 1) 0 none

/-- `tools.ToolExecutionStats` record (`task_done_tool.go`), reduced to
the fields the aggregate queries read: success flag and execution time
in nanoseconds. -/
structure ToolExecutionStats where
  toolName : String
  executionTime : Int
  success : Bool
deriving Repr, DecidableEq

/-- `ToolExecutionTracker.GetSuccessRate` (`task_done_tool.go` lines
700–714): 0 for an empty tracker, else successes / total as `float64`
(modelled exactly in `ℚ`). -/
def GetSuccessRate (stats : List ToolExecutionStats) : ℚ :=
  if stats.length = 0 then 0
  else ((stats.filter (·.success)).length : ℚ) / (stats.length : ℚ)

/-- `ToolExecutionTracker.GetAverageExecutionTime` (`task_done_tool.go`
lines 716–728): 0 for an empty tracker, else the integer quotient of the
summed durations by the count (Go `Duration` division truncates toward
zero). -/
def GetAverageExecutionTime (stats : List ToolExecutionStats) : Int :=
  if stats.length = 0 then 0
  else Int.tdiv ((stats.map (·.executionTime)).sum) (stats.length : Int)

/-! ### JSON serialization (`encoding/json`) used by `generateCacheKey` -/

/-- Opening brace character, written via its code point. -/
def lbraceChar : Char := Char.ofNat 123

/-- Closing brace character, written via its code point. -/
def rbraceChar : Char := Char.ofNat 125

/-- One lowercase hexadecimal digit. -/
def hexDigitChar (d : Nat) : Char :=
  if d < 10 then Char.ofNat (48 + d) else Char.ofNat (87 + d)

/-- `\uXXXX` escape for a code point below `0x10000`. -/
def uHex4 (n : Nat) : List Char :=
  ['\\', 'u', hexDigitChar (n / 4096 % 16), hexDigitChar (n / 256 % 16),
    hexDigitChar (n / 16 % 16), hexDigitChar (n % 16)]

/-- Per-character escaping of Go's default (HTML-escaping) JSON string
encoder: `"` and `\` get backslash escapes, `\n`/`\r`/`\t` their short
forms, other control characters and `<`, `>`, `&`, U+2028, U+2029 a
`\u` escape, and everything else passes through unchanged. -/
def escapeChar (c : Char) : List Char :=
  if c = '"' then ['\\', '"']
  else if c = '\\' then ['\\', '\\']
  else if c = '\n' then ['\\', 'n']
  else if c = '\r' then ['\\', 'r']
  else if c = '\t' then ['\\', 't']
  else if c.toNat < 32 then uHex4 c.toNat
  else if c = '<' then uHex4 c.toNat
  else if c = '>' then uHex4 c.toNat
  else if c = '&' then uHex4 c.toNat
  else if c.toNat = 8232 then uHex4 c.toNat
  else if c.toNat = 8233 then uHex4 c.toNat
  else [c]

/-- JSON string literal: quote, escaped characters, quote. -/
def encStr (s : String) : List Char :=
  '"' :: (s.toList.map escapeChar).flatten ++ ['"']

/-- Canonical decimal digits of a natural number, most significant
first. -/
def natDigits (n : Nat) : List Char :=
  if _h : n < 10 then [hexDigitChar n]
  else natDigits (n / 10) ++ [hexDigitChar (n % 10)]
decreasing_by exact Nat.div_lt_self (by omega) (by omega)

/-- Decimal rendering of an integer, as `json.Marshal` prints it. -/
def intChars (i : Int) : List Char :=
  if i < 0 then '-' :: natDigits (-i).toNat else natDigits i.toNat

mutual

/-- Rendering of a `Json` value, mirroring `json.Marshal` (objects are
rendered in the order of the association list; a Go map corresponds to
the key-sorted list). -/
def encVal : Json → List Char
  | .num n => intChars n
  | .null => 'n' :: ['u', 'l', 'l']
  | .str s => encStr s
  | .bool b => if b then 't' :: ['r', 'u', 'e'] else 'f' :: ['a', 'l', 's', 'e']
  | .arr xs => '[' :: encItems xs ++ [']']
  | .obj fs => lbraceChar :: encFields fs ++ [rbraceChar]

/-- Comma-separated array elements. -/
def encItems : List Json → List Char
  | [] => []
  | [x] => encVal x
  | x :: y :: rest => encVal x ++ ',' :: encItems (y :: rest)

/-- Comma-separated `"key":value` object fields. -/
def encFields : List (String × Json) → List Char
  | [] => []
  | [(k, v)] => encStr k ++ ':' :: encVal v
  | (k, v) :: f :: rest => encStr k ++ ':' :: encVal v ++ ',' :: encFields (f :: rest)

end

/-- Reading decimal digits back into a number (left inverse of
`natDigits`, used to prove it injective). -/
def digitsToNat (l : List Char) : Nat :=
  l.foldl (fun a c => 10 * a + (c.toNat - 48)) 0

/-- A character list that does not begin with a decimal digit — the
side condition under which a rendered number is self-delimiting. -/
def noDigitHead : List Char → Prop
  | [] => True
  | c :: _ => c.toNat < 48 ∨ 57 < c.toNat

/-- JSON form of `llm.ToolCallFunction` (fields `name`, `arguments`). -/
def jsonOfToolCallFunction (f : ToolCallFunction) : Json :=
  .obj [("name", .str f.name), ("arguments", .obj f.arguments)]

/-- JSON form of `llm.ToolCall` (fields `id`, `type`, `function`). -/
def jsonOfToolCall (tc : ToolCall) : Json :=
  .obj [("id", .str tc.id), ("type", .str tc.ctype),
    ("function", jsonOfToolCallFunction tc.function)]

/-- JSON form of `llm.LLMMessage`; the `omitempty` fields `name`,
`tool_calls`, `tool_call_id`, `metadata` are dropped at their zero
values. -/
def jsonOfMessage (m : LLMMessage) : Json :=
  .obj ([("role", .str m.role), ("content", .str m.content)]
    ++ (if m.name == "" then [] else [("name", .str m.name)])
    ++ (if m.toolCalls.isEmpty then []
        else [("tool_calls", .arr (m.toolCalls.map jsonOfToolCall))])
    ++ (if m.toolCallID == "" then [] else [("tool_call_id", .str m.toolCallID)])
    ++ (if m.metadata.isEmpty then [] else [("metadata", .obj m.metadata)]))

/-- JSON form of `llm.ToolFunction`. -/
def jsonOfToolFunction (f : ToolFunction) : Json :=
  .obj [("name", .str f.name), ("description", .str f.description),
    ("parameters", .obj f.parameters)]

/-- JSON form of `llm.Tool`. -/
def jsonOfTool (t : ToolS) : Json :=
  .obj [("type", .str t.ttype), ("function", jsonOfToolFunction t.function)]

/-- The anonymous struct serialized by
`CachedLLMClient.generateCacheKey`: messages, tools, model, provider,
in declaration order. -/
def cacheKeyJson (messages : List LLMMessage) (tools : List ToolS)
    (model provider : String) : Json :=
  .obj [("messages", .arr (messages.map jsonOfMessage)),
    ("tools", .arr (tools.map jsonOfTool)),
    ("model", .str model), ("provider", .str provider)]

/-- `CachedLLMClient.generateCacheKey`: the SHA-256 hex digest of the
`json.Marshal` serialization of `cacheKeyJson`.  The hash step is kept
abstract — the claims about the key quantify "up to hash collision", so
they are settled on the hash pre-image, i.e. on the serialized bytes
themselves. -/
def generateCacheKey (messages : List LLMMessage) (tools : List ToolS)
    (model provider : String) : String :=
  String.mk (encVal (cacheKeyJson messages tools model provider))

/-! #### A decoder for the serialization, used to prove it injective -/

/-- Value of a (lowercase) hexadecimal digit character. -/
def hexVal (c : Char) : Nat :=
  if c.toNat ≤ 57 then c.toNat - 48 else c.toNat - 87

/-- Decode one character of a JSON string body: `none` on the closing
quote or malformed input, otherwise the character and the rest. -/
def unescapeStep : List Char → Option (Char × List Char)
  | [] => none
  | c :: rest =>
      if c = '"' then none
      else if c = '\\' then
        match rest with
        | [] => none
        | k :: rest' =>
            if k = '"' then some ('"', rest')
            else if k = '\\' then some ('\\', rest')
            else if k = 'n' then some ('\n', rest')
            else if k = 'r' then some ('\r', rest')
            else if k = 't' then some ('\t', rest')
            else if k = 'u' then
              match rest' with
              | a :: b :: c2 :: d :: rest2 =>
                  some (Char.ofNat
                    (4096 * hexVal a + 256 * hexVal b + 16 * hexVal c2 + hexVal d),
                    rest2)
              | _ => none
            else none
      else some (c, rest)

/-- Decode a JSON string body up to its closing quote. -/
def parseStr : Nat → List Char → Option (List Char × List Char)
  | 0, _ => none
  | fuel + 1, s =>
      match s with
      | [] => none
      | c :: rest =>
          if c = '"' then some ([], rest)
          else
            match unescapeStep (c :: rest) with
            | none => none
            | some (d, rem) =>
                match parseStr fuel rem with
                | none => none
                | some (ds, r) => some (d :: ds, r)

/-- Split off a maximal run of decimal digits. -/
def takeDigits : List Char → List Char × List Char
  | [] => ([], [])
  | c :: rest =>
      if 48 ≤ c.toNat ∧ c.toNat ≤ 57 then
        let p := takeDigits rest
        (c :: p.1, p.2)
      else ([], c :: rest)

mutual

/-- Decode one JSON value (fuel-bounded recursive descent). -/
def parseVal : Nat → List Char → Option (Json × List Char)
  | 0, _ => none
  | fuel + 1, s =>
      match s with
      | [] => none
      | c :: r =>
          if c = 'n' then
            match r with
            | 'u' :: 'l' :: 'l' :: r' => some (.null, r')
            | _ => none
          else if c = 't' then
            match r with
            | 'r' :: 'u' :: 'e' :: r' => some (.bool true, r')
            | _ => none
          else if c = 'f' then
            match r with
            | 'a' :: 'l' :: 's' :: 'e' :: r' => some (.bool false, r')
            | _ => none
          else if c = '"' then
            match parseStr fuel r with
            | none => none
            | some (ds, rem) => some (.str (String.mk ds), rem)
          else if c = '[' then
            match parseItems fuel r with
            | none => none
            | some (vs, rem) => some (.arr vs, rem)
          else if c = lbraceChar then
            match parseFields fuel r with
            | none => none
            | some (fs, rem) => some (.obj fs, rem)
          else if c = '-' then
            let p := takeDigits r
            if p.1 = [] then none
            else some (.num (-(digitsToNat p.1 : Int)), p.2)
          else if 48 ≤ c.toNat ∧ c.toNat ≤ 57 then
            let p := takeDigits (c :: r)
            some (.num (digitsToNat p.1 : Int), p.2)
          else none

/-- Decode array elements up to the closing bracket. -/
def parseItems : Nat → List Char → Option (List Json × List Char)
  | 0, _ => none
  | fuel + 1, s =>
      match s with
      | [] => none
      | c :: r =>
          if c = ']' then some ([], r)
          else
            match parseVal fuel (c :: r) with
            | none => none
            | some (v, rem) =>
                match rem with
                | [] => none
                | d :: r' =>
                    if d = ']' then some ([v], r')
                    else if d = ',' then
                      match parseItems fuel r' with
                      | none => none
                      | some (vs, r'') => some (v :: vs, r'')
                    else none

/-- Decode object fields up to the closing brace. -/
def parseFields : Nat → List Char → Option (List (String × Json) × List Char)
  | 0, _ => none
  | fuel + 1, s =>
      match s with
      | [] => none
      | c :: r =>
          if c = rbraceChar then some ([], r)
          else if c = '"' then
            match parseStr fuel r with
            | none => none
            | some (k, rem) =>
                match rem with
                | ':' :: rem' =>
                    match parseVal fuel rem' with
                    | none => none
                    | some (v, rem'') =>
                        match rem'' with
                        | [] => none
                        | d :: r' =>
                            if d = rbraceChar then some ([(String.mk k, v)], r')
                            else if d = ',' then
                              match parseFields fuel r' with
                              | none => none
                              | some (fs, r'') =>
                                  some ((String.mk k, v) :: fs, r'')
                            else none
                | _ => none
          else none

end

mutual

/-- Fuel sufficient to decode the rendering of a value. -/
def jsize : Json → Nat
  | .str s => s.toList.length + 2
  | .null => 1
  | .arr xs => jsizeL xs + 2
  | .bool _ => 1
  | .obj fs => jsizeF fs + 2
  | .num _ => 1

/-- Fuel sufficient to decode a rendered element list. -/
def jsizeL : List Json → Nat
  | [] => 1
  | x :: xs => jsize x + jsizeL xs + 1

/-- Fuel sufficient to decode a rendered field list. -/
def jsizeF : List (String × Json) → Nat
  | [] => 1
  | (k, v) :: fs => k.toList.length + jsize v + jsizeF fs + 2

end

/-- First-match association lookup on decoded object fields. -/
def jlookup : List (String × Json) → String → Option Json
  | [], _ => none
  | (k, v) :: rest, key => if k = key then some v else jlookup rest key

/-- Decode a `ToolCall` from its exact serialized shape. -/
def toolCallOfJson : Json → Option ToolCall
  | .obj [("id", .str i), ("type", .str ct),
      ("function", .obj [("name", .str n), ("arguments", .obj args)])] =>
      some { id := i, ctype := ct, function := { name := n, arguments := args } }
  | _ => none

/-- Decode a `Tool` from its exact serialized shape. -/
def toolOfJson : Json → Option ToolS
  | .obj [("type", .str tt),
      ("function", .obj [("name", .str n), ("description", .str d),
        ("parameters", .obj ps)])] =>
      some { ttype := tt, function := { name := n, description := d, parameters := ps } }
  | _ => none

/-- Decode an `LLMMessage`, restoring zero values for omitted
`omitempty` fields. -/
def msgOfJson : Json → Option LLMMessage
  | .obj fs =>
      match jlookup fs "role", jlookup fs "content" with
      | some (.str role), some (.str content) =>
          let name := match jlookup fs "name" with | some (.str n) => n | _ => ""
          let toolCalls := match jlookup fs "tool_calls" with
            | some (.arr xs) => (xs.mapM toolCallOfJson).getD []
            | _ => []
          let toolCallID :=
            match jlookup fs "tool_call_id" with | some (.str s) => s | _ => ""
          let metadata :=
            match jlookup fs "metadata" with | some (.obj m) => m | _ => []
          some { role := role, content := content, name := name,
                 toolCalls := toolCalls, toolCallID := toolCallID,
                 metadata := metadata }
      | _, _ => none
  | _ => none

/-! ### `MemoryCache` (`llm` cache file) -/

/-- `llm.CacheEntry`: stored response, creation instant, expiry instant,
per-entry hit counter.  Instants are nanosecond counts. -/
structure CacheEntry where
  response : LLMMessage
  timestamp : Nat
  expiration : Nat
  hitCount : Nat

/-- `llm.CacheConfig`, reduced to the fields the cache operations read
(`CleanupInterval` only drives the background goroutine and
`EnableStats` is never consulted by the code). -/
structure CacheConfig where
  maxSize : Nat
  ttl : Nat

/-- `llm.CacheStats`. -/
structure CacheStats where
  hits : Int := 0
  misses : Int := 0
  evictions : Int := 0
  size : Int := 0
  maxSize : Int := 0
  hitRate : ℚ := 0

/-- The Go `map[string]*CacheEntry`, modelled as an association list
with (by construction) unique keys; the list order stands for the
map's iteration order. -/
abbrev CacheMap := List (String × CacheEntry)

/-- Map lookup. -/
def CacheMap.get (m : CacheMap) (k : String) : Option CacheEntry :=
  match m with
  | [] => none
  | (k', e) :: rest => if k' = k then some e else CacheMap.get rest k

/-- Map write `m[k] = e`: replace in place or append. -/
def CacheMap.set (m : CacheMap) (k : String) (e : CacheEntry) : CacheMap :=
  match m with
  | [] => [(k, e)]
  | (k', e') :: rest =>
      if k' = k then (k, e) :: rest else (k', e') :: CacheMap.set rest k e

/-- Map `delete(m, k)`. -/
def CacheMap.del (m : CacheMap) (k : String) : CacheMap :=
  match m with
  | [] => []
  | (k', e') :: rest =>
      if k' = k then rest else (k', e') :: CacheMap.del rest k

/-- `llm.MemoryCache` (mutex, stop channel and background goroutine are
concurrency plumbing outside a sequential model). -/
structure MemoryCache where
  config : CacheConfig
  cache : CacheMap
  stats : CacheStats

/-- `NewMemoryCache` with an explicit configuration. -/
def NewMemoryCache (config : CacheConfig) : MemoryCache :=
  { config := config, cache := [], stats := { maxSize := (config.maxSize : Int) } }

/-- The scan of `MemoryCache.evictLRU`: starting from a first candidate,
keep the entry with the strictly smallest creation timestamp (first
such entry in iteration order wins ties). -/
def scanOldest : (String × CacheEntry) → CacheMap → (String × CacheEntry)
  | best, [] => best
  | best, e :: rest =>
      scanOldest (if e.2.timestamp < best.2.timestamp then e else best) rest

/-- `MemoryCache.evictLRU` lines 204–226: on a non-empty map, find the
oldest-created entry and delete it — but only when its key is not the
empty string (`if oldestKey != ""`). -/
def MemoryCache.evictLRU (mc : MemoryCache) : MemoryCache :=
  match mc.cache with
  | [] => mc
  | e :: rest =>
      let oldest := scanOldest e rest
      if oldest.1 ≠ "" then
        { mc with cache := mc.cache.del oldest.1,
                  stats := { mc.stats with evictions := mc.stats.evictions + 1 } }
      else mc

/-- `MemoryCache.Get` lines 95–129 at instant `now`: miss on an absent
key; an entry with `now` strictly after its expiration is deleted and
counted as eviction + miss; otherwise bump the entry's hit counter and
the hit statistics (recomputing the hit rate) and return the stored
response. -/
def MemoryCache.Get (mc : MemoryCache) (now : Nat) (key : String) :
    Option LLMMessage × MemoryCache :=
  match mc.cache.get key with
  | none =>
      (none, { mc with stats := { mc.stats with misses := mc.stats.misses + 1 } })
  | some entry =>
      if now > entry.expiration then
        (none, { mc with
          cache := mc.cache.del key,
          stats := { mc.stats with
            size := mc.stats.size - 1,
            evictions := mc.stats.evictions + 1,
            misses := mc.stats.misses + 1 } })
      else
        let cache' := mc.cache.set key { entry with hitCount := entry.hitCount + 1 }
        let hits' := mc.stats.hits + 1
        let stats' := { mc.stats with hits := hits' }
        let stats' :=
          if hits' + stats'.misses > 0 then
            { stats' with hitRate := (hits' : ℚ) / ((hits' + stats'.misses : Int) : ℚ) }
          else stats'
        (some entry.response, { mc with cache := cache', stats := stats' })

/-- `MemoryCache.Set` lines 131–153 at instant `now`: evict (at most)
one entry when the map has reached `MaxSize`, then store a fresh entry
expiring at `now + TTL` and record the new size. -/
def MemoryCache.Set (mc : MemoryCache) (now : Nat) (key : String)
    (response : LLMMessage) : MemoryCache :=
  let mc := if mc.cache.length ≥ mc.config.maxSize then mc.evictLRU else mc
  let entry : CacheEntry :=
    { response := response, timestamp := now,
      expiration := now + mc.config.ttl, hitCount := 0 }
  let cache' := mc.cache.set key entry
  { mc with cache := cache',
            stats := { mc.stats with size := (cache'.length : Int) } }

/-- `MemoryCache.Delete` lines 155–164. -/
def MemoryCache.Delete (mc : MemoryCache) (key : String) : MemoryCache :=
  match mc.cache.get key with
  | none => mc
  | some _ =>
      let cache' := mc.cache.del key
      { mc with cache := cache',
                stats := { mc.stats with size := (cache'.length : Int) } }

/-- `MemoryCache.Cleanup` lines 189–202 at instant `now`: drop every
expired entry, counting each as an eviction, and record the new size. -/
def MemoryCache.Cleanup (mc : MemoryCache) (now : Nat) : MemoryCache :=
  let keep := mc.cache.filter (fun e => !(now > e.2.expiration))
  let dropped := mc.cache.length - keep.length
  { mc with cache := keep,
            stats := { mc.stats with
              evictions := mc.stats.evictions + (dropped : Int),
              size := (keep.length : Int) } }

/-- The foreground cache operations of the `LLMCache` interface, tagged
with the instant at which they run. -/
inductive CacheOp where
  | set (now : Nat) (key : String) (msg : LLMMessage) : CacheOp
  | get (now : Nat) (key : String) : CacheOp
  | del (key : String) : CacheOp
  | cleanup (now : Nat) : CacheOp

/-- Keys written by an operation are nonempty (the empty string defeats
`evictLRU`'s `oldestKey != ""` guard). -/
def CacheOp.keyOK : CacheOp → Prop
  | .set _ key _ => key ≠ ""
  | _ => True

/-- Apply one operation. -/
def MemoryCache.applyOp (mc : MemoryCache) : CacheOp → MemoryCache
  | .set now key msg => mc.Set now key msg
  | .get now key => (mc.Get now key).2
  | .del key => mc.Delete key
  | .cleanup now => mc.Cleanup now

/-- Apply a sequence of operations in order. -/
def MemoryCache.applyOps (mc : MemoryCache) (ops : List CacheOp) : MemoryCache :=
  ops.foldl MemoryCache.applyOp mc

/-- The underlying gateway seen by `CachedLLMClient`: a deterministic
function of the request triple. -/
def UClient := List LLMMessage → List ToolS → String → Except GoError LLMMessage

/-- `CachedLLMClient` state: the shared cache plus a counter of
underlying `client.Chat` invocations (the observable the idempotence
property talks about). -/
structure CachedState where
  mc : MemoryCache
  calls : Nat

/-- `CachedLLMClient.Chat` lines 262–282 at instant `now`: compute the
key, try the cache, and on a miss consult the underlying client —
propagating its error unchanged, or storing and returning its
response. -/
def cachedChat (client : UClient) (provider : String) (st : CachedState)
    (now : Nat) (messages : List LLMMessage) (tools : List ToolS)
    (model : String) : Except GoError LLMMessage × CachedState :=
  let cacheKey := generateCacheKey messages tools model provider
  match st.mc.Get now cacheKey with
  | (some cached, mc') => (.ok cached, { st with mc := mc' })
  | (none, mc') =>
      match client messages tools model with
      | .error e => (.error e, { mc := mc', calls := st.calls + 1 })
      | .ok response =>
          (.ok response,
            { mc := mc'.Set now cacheKey response, calls := st.calls + 1 })

/-! ### Agent loop (`BaseAgent` + `TraeAgent.ExecuteTask`)

The step log itself is spec-modelled: the repository's `BaseAgent`
variant in scope constructs each `ExecutionStep` in `AddExecutionStep`
but the storage/`getExecutionSteps` accessor lives outside the provided
sources; per the spec, steps are appended in order and never removed. -/

/-- `tools.ToolResult` (the fields the loop reads and writes). -/
structure ToolResultS where
  callID : String
  name : String
  success : Bool
  result : String
  error : String
deriving Repr, DecidableEq

/-- `agent.ExecutionStep`. -/
structure ExecutionStepS where
  stepNumber : Nat
  action : String
  input : String
  output : String
  toolCall : Option ToolCall
  toolResult : Option ToolResultS
  timestamp : Nat
deriving Repr

/-- `agent.AgentExecution` (duration and metadata carry no logic). -/
structure AgentExecutionS where
  success : Bool := false
  output : String := ""
  error : String := ""
  steps : List ExecutionStepS := []
  toolResults : List ToolResultS := []
deriving Repr

/-- A registered tool's `Execute`: arguments in, either a result or a Go
error. -/
def ToolFn := List (String × Json) → Except GoError ToolResultS

/-- The collaborators `ExecuteTask` consults: the (possibly decorated)
LLM client as a deterministic function of the conversation, the tool
registry, the task text, and the (tool-derived) system prompt that
`buildSystemPrompt` produces. -/
structure AgentEnv where
  chat : List LLMMessage → Except GoError LLMMessage
  registry : List (String × ToolFn)
  task : String
  systemPrompt : String

/-- `ToolRegistry.Get`. -/
def registryGet (reg : List (String × ToolFn)) (name : String) : Option ToolFn :=
  match reg with
  | [] => none
  | (n, f) :: rest => if n = name then some f else registryGet rest name

/-- Loop state of one `ExecuteTask` run.  `chatCalls` and `clock` are
instrumentation: the number of `llmClient.Chat` invocations so far and a
logical timestamp source. -/
structure LoopState where
  stepCount : Nat
  maxSteps : Nat
  messages : List LLMMessage
  history : List LLMMessage
  storedSteps : List ExecutionStepS
  exec : AgentExecutionS
  tracker : List ToolExecutionStats
  chatCalls : Nat
  clock : Nat

/-- `BaseAgent.AddExecutionStep` (`part_003` lines 179–194): increment
the step counter and record an `ExecutionStep` numbered with the new
counter value. -/
def addExecutionStep (s : LoopState) (action input output : String)
    (tc : Option ToolCall) (tr : Option ToolResultS) : LoopState :=
  let n := s.stepCount + 1
  { s with
    stepCount := n,
    clock := s.clock + 1,
    storedSteps := s.storedSteps ++
      [{ stepNumber := n, action := action, input := input, output := output,
         toolCall := tc, toolResult := tr, timestamp := s.clock }] }

/-- The completion keywords of `TraeAgent.isTaskComplete`. -/
def completionKeywords : List String :=
  ["任务完成", "完成", "done", "finished", "complete",
   "任务已结束", "执行完毕", "over", "success"]

/-- `TraeAgent.isTaskComplete`: case-insensitive substring match of the
content against the fixed keyword list. -/
def isTaskComplete (content : String) : Bool :=
  let lowerContent := String.mk (content.toList.map Char.toLower)
  completionKeywords.any (fun keyword => strContains lowerContent keyword)

/-- `BaseAgent.CheckStepLimit` failure message. -/
def stepLimitMessage (maxSteps : Nat) : String :=
  "maximum number of steps (" ++ toString maxSteps ++ ") exceeded"

/-- `TraeAgent.shouldStopExecution` (`part_004` lines 366–392), reading
the live step counter. -/
def shouldStopExecution (s : LoopState) : Bool :=
  let successfulTools := (s.exec.toolResults.filter (·.success)).length
  if successfulTools > 0 ∧ s.exec.error = "" then
    let lastComplete :=
      match s.exec.toolResults.getLast? with
      | some lastResult => lastResult.success && isTaskComplete lastResult.result
      | none => false
    if lastComplete then true
    else if 3 ≤ s.stepCount then true
    else false
  else false

/-- The `for _, toolCall := range response.ToolCalls` body (`part_004`
lines 207–266): an unknown tool records the error and abandons the
remaining calls of this response (the `break` leaves only this inner
loop); a failed `Execute` is converted into an unsuccessful
`ToolResult`; each call appends a `tool_execution` step, the result,
and a tool-role message. -/
def runToolCalls (env : AgentEnv) : List ToolCall → LoopState → LoopState
  | [], s => s
  | tc :: rest, s =>
    match registryGet env.registry tc.function.name with
    | none =>
        { s with exec := { s.exec with
            error := "tool '" ++ tc.function.name ++ "' not found" } }
    | some toolFn =>
        let execRes := toolFn tc.function.arguments
        let ok := match execRes with | .ok _ => true | .error _ => false
        let s := { s with tracker := s.tracker ++
          [{ toolName := tc.function.name, executionTime := 0, success := ok }] }
        let toolResult :=
          match execRes with
          | .ok r => r
          | .error e =>
              { callID := tc.id, name := tc.function.name, success := false,
                result := "", error := e.message }
        let s := addExecutionStep s "tool_execution"
          ("Tool: " ++ tc.function.name) toolResult.result (some tc) (some toolResult)
        let toolMessage : LLMMessage :=
          { role := "tool", content := toolResult.result, name := "",
            toolCalls := [], toolCallID := tc.id, metadata := [] }
        let s := { s with
          exec := { s.exec with toolResults := s.exec.toolResults ++ [toolResult] },
          messages := s.messages ++ [toolMessage],
          history := s.history ++ [toolMessage] }
        runToolCalls env rest s

/-- Lines 174–179: on the very first iteration of a fresh conversation,
append the user's task text. -/
def withUserMessage (env : AgentEnv) (s : LoopState) : LoopState :=
  if s.stepCount = 0 ∧ s.history.isEmpty then
    { s with messages := s.messages ++
      [{ role := "user", content := env.task, name := "", toolCalls := [],
         toolCallID := "", metadata := [] }] }
  else s

/-- The gateway-failure message of lines 185–194, with its status-code
embellishments. -/
def llmFailureMessage (err : GoError) : String :=
  let base := "LLM call failed: " ++ err.message
  if strContains err.message "404" then
    base ++ " - 模型不存在或无访问权限，请检查模型名称和API密钥"
  else if strContains err.message "401" then
    base ++ " - API密钥无效，请检查API密钥"
  else if strContains err.message "rate limit" then
    base ++ " - 达到API调用限制，请稍后重试"
  else base

/-- Outcome of one iteration of the main loop: continue, or leave the
loop with the given state. -/
inductive StepOut where
  | cont (s : LoopState) : StepOut
  | halt (s : LoopState) : StepOut

/-- The loop state right after a successful `llmClient.Chat`: the
response appended to both the conversation and the history, and the
call counter bumped. -/
def afterChatOk (env : AgentEnv) (s : LoopState) (r : LLMMessage) : LoopState :=
  let w := withUserMessage env s
  { w with chatCalls := w.chatCalls + 1,
           messages := w.messages ++ [r],
           history := w.history ++ [r] }

/-- One full iteration of the `for ta.GetStepCount() < ta.GetMaxSteps()`
body (`part_004` lines 166–291). -/
def loopBody (env : AgentEnv) (s0 : LoopState) : StepOut :=
  if s0.maxSteps ≤ s0.stepCount then
    .halt { s0 with exec := { s0.exec with error := stepLimitMessage s0.maxSteps } }
  else
    let s := withUserMessage env s0
    match env.chat s.messages with
    | .error err =>
        .halt { s with
                chatCalls := s.chatCalls + 1,
                exec := { s.exec with error := llmFailureMessage err } }
    | .ok response =>
        let s := afterChatOk env s0 response
        if response.toolCalls.isEmpty then
          if isTaskComplete response.content then
            .halt { s with exec := { s.exec with
              success := true, output := response.content } }
          else
            .cont (addExecutionStep s "llm_response" "" response.content none none)
        else
          let s := runToolCalls env response.toolCalls s
          if shouldStopExecution s then
            .halt { s with exec := { s.exec with
              success := true, output := "任务通过工具执行完成" } }
          else
            .cont (addExecutionStep s "llm_response" "" response.content none none)

/-- The main loop, with explicit fuel.  Every continuing iteration
increments `stepCount` by at least one, so `maxSteps` units of fuel
make the fuel guard unreachable (`loopRun_fuel` below). -/
def loopRun (env : AgentEnv) : Nat → LoopState → LoopState
  | 0, s => s
  | fuel + 1, s =>
      if s.stepCount < s.maxSteps then
        match loopBody env s with
        | .cont s' => loopRun env fuel s'
        | .halt s' => s'
      else s

/-- Initial loop state of `ExecuteTask`: conversation seeded with the
system prompt and any prior history. -/
def initialState (env : AgentEnv) (maxSteps : Nat)
    (initialHistory : List LLMMessage) : LoopState :=
  { stepCount := 0, maxSteps := maxSteps,
    messages := { role := "system", content := env.systemPrompt, name := "",
                  toolCalls := [], toolCallID := "", metadata := [] } :: initialHistory,
    history := initialHistory, storedSteps := [], exec := {},
    tracker := [], chatCalls := 0, clock := 0 }

/-- `TraeAgent.ExecuteTask` (`part_004` lines 135–297) as a state
transformer: the up-front `CheckStepLimit`, then the main loop. -/
def runTrae (env : AgentEnv) (maxSteps : Nat)
    (initialHistory : List LLMMessage) : LoopState :=
  let s0 := initialState env maxSteps initialHistory
  if s0.maxSteps ≤ s0.stepCount then
    { s0 with exec := { s0.exec with error := stepLimitMessage maxSteps } }
  else loopRun env maxSteps s0

/-- The returned `AgentExecution`: the final accumulator with the
recorded steps attached. -/
def executeTask (env : AgentEnv) (maxSteps : Nat)
    (initialHistory : List LLMMessage) : AgentExecutionS :=
  let f := runTrae env maxSteps initialHistory
  { f.exec with steps := f.storedSteps }

/-- The state carried out of one loop iteration, whichever way it
ended. -/
def outState : StepOut → LoopState
  | .cont s => s
  | .halt s => s

/-- Step-log invariant: the recorded steps are numbered 1, 2, … in
order, and the live counter equals the number of recorded steps. -/
def stepsInv (s : LoopState) : Prop :=
  s.storedSteps.map (·.stepNumber) = List.range' 1 s.storedSteps.length ∧
    s.stepCount = s.storedSteps.length

/-- An assistant message carrying the given tool calls. -/
def asstMsg (content : String) (tcs : List ToolCall) : LLMMessage :=
  { role := "assistant", content := content, name := "", toolCalls := tcs,
    toolCallID := "", metadata := [] }

/-- A tool call with empty arguments addressed to the named tool. -/
def mkToolCall (name : String) : ToolCall :=
  { id := "call1", ctype := "function", function := { name := name, arguments := [] } }

/-- A tool that always succeeds with the given output. -/
def okToolFn (res : String) : ToolFn :=
  fun _ => .ok { callID := "c", name := "t", success := true, result := res, error := "" }

/-- Scripted environment: the model's first answer triggers two calls of
tool `t`, every answer after a tool result is plain prose. -/
def envTwoCalls : AgentEnv :=
  { chat := fun msgs =>
      .ok (if msgs.any (fun m => m.role == "tool")
           then asstMsg "keep going" []
           else asstMsg "using tools" [mkToolCall "t", mkToolCall "t"]),
    registry := [("t", okToolFn "working")],
    task := "demo", systemPrompt := "sys" }

/-- Scripted environment: the model first calls a tool named `ghost`
that is not registered, then answers with a completion keyword. -/
def envGhost : AgentEnv :=
  { chat := fun msgs =>
      .ok (if msgs.length ≤ 2
           then asstMsg "calling ghost" [mkToolCall "ghost"]
           else asstMsg "done" []),
    registry := [("t", okToolFn "working")],
    task := "demo", systemPrompt := "sys" }

/-- A tool that always fails with a generic error. -/
def failToolFn : ToolFn := fun _ => .error (.generic "boom")

/-- Scripted environment whose single registered tool always fails. -/
def envFailTool : AgentEnv :=
  { chat := fun _ => .ok (asstMsg "x" [mkToolCall "t"]),
    registry := [("t", failToolFn)],
    task := "demo", systemPrompt := "sys" }

/-- A concrete cache entry used in witnesses. -/
def entryAt (r : String) (ts : Nat) : CacheEntry :=
  { response := asstMsg r [], timestamp := ts, expiration := ts + 10, hitCount := 0 }

/-- A concrete cache at capacity 2, whose oldest entry is `"b"`
(created at 3, versus 5 for `"a"`). -/
def mcAtCap : MemoryCache :=
  { config := { maxSize := 2, ttl := 10 },
    cache := [("a", entryAt "ra" 5), ("b", entryAt "rb" 3)],
    stats := {} }

/-- A fresh cached-client state over an empty TTL-5 cache. -/
def stEmpty : CachedState :=
  { mc := NewMemoryCache { maxSize := 10, ttl := 5 }, calls := 0 }

/-- A cached-client state already holding an entry for the empty
request against model `"m"` and provider `"p"`. -/
def stWithKey : CachedState :=
  { mc := { config := { maxSize := 10, ttl := 5 },
            cache := [(generateCacheKey [] [] "m" "p", entryAt "r" 0)],
            stats := {} },
    calls := 0 }

/-- An underlying gateway that always answers. -/
def okClient : UClient := fun _ _ _ => .ok (asstMsg "resp" [])

/-- An underlying gateway that always fails. -/
def errClient : UClient := fun _ _ _ => .error (.generic "down")

/-- A concrete retry configuration used in witnesses: the default delays
with a chosen retry budget. -/
def mkRetryConfig (r : Nat) : RetryConfig :=
  { maxRetries := r, baseDelay := 1000000000, maxDelay := 30000000000, backoffRate := 2 }

/-- A concrete typed LLM error used in witnesses. -/
def mkLLMError (ty msg : String) : LLMError :=
  { etype := ty, code := "", message := msg, param := "" }

/-! ## Theorems -/

/-- Helper: under an always-failing, always-retryable gateway with no
cancelled waits, the retry loop consumes all its fuel and reports
exhaustion with the last error. -/
theorem retryChatAux_exhaust (cfg : RetryConfig) (client : Gateway)
    (cancelled : Nat → Bool) (e : Nat → GoError)
    (hfail : ∀ n, n ≤ cfg.maxRetries → client n = .error (e n))
    (hretry : ∀ n, n ≤ cfg.maxRetries → IsRetryableError (e n) = true)
    (hcancel : ∀ n, cancelled n = false) :
    ∀ fuel attempt last, attempt + fuel = cfg.maxRetries + 1 →
      attempt ≤ cfg.maxRetries →
      retryChatAux cfg client cancelled fuel attempt last =
        (.error (.maxRetriesExceeded (e cfg.maxRetries)), fuel)
  | 0, attempt, _, h1, h2 => by omega
  | fuel + 1, attempt, last, h1, h2 => by
      have hc := hfail attempt h2
      have hr := hretry attempt h2
      by_cases ha : attempt = cfg.maxRetries
      · have hf : fuel = 0 := by omega
        subst ha hf
        simp [retryChatAux, hc, hr]
      · have hrec := retryChatAux_exhaust cfg client cancelled e hfail hretry hcancel
          fuel (attempt + 1) (some (e attempt)) (by omega) (by omega)
        simp [retryChatAux, hc, hr, ha, hcancel, hrec]

/-- C1: with `max_retries = r` and a gateway failing with a retryable
error on every attempt (and no wait cancelled by the per-attempt
context), `RetryableLLMClient.Chat` performs exactly `r + 1` underlying
attempts and returns the max-retries-exceeded error wrapping the last
underlying error; `r = 0` gives exactly one attempt. -/
theorem retry_exhaustion (cfg : RetryConfig) (client : Gateway)
    (cancelled : Nat → Bool) (e : Nat → GoError)
    (hfail : ∀ n, n ≤ cfg.maxRetries → client n = .error (e n))
    (hretry : ∀ n, n ≤ cfg.maxRetries → IsRetryableError (e n) = true)
    (hcancel : ∀ n, cancelled n = false) :
    retryChat cfg client cancelled =
      (.error (.maxRetriesExceeded (e cfg.maxRetries)), cfg.maxRetries + 1) :=
  retryChatAux_exhaust cfg client cancelled e hfail hretry hcancel
    (cfg.maxRetries + 1) 0 none (by omega) (by omega)

/-- Witness for C1: three total attempts with `max_retries = 2`, and one
attempt with `max_retries = 0`. -/
theorem retry_exhaustion_witness :
    retryChat (mkRetryConfig 2)
      (fun _ => .error (.generic "timeout")) (fun _ => false) =
      (.error (.maxRetriesExceeded (.generic "timeout")), 3) ∧
    retryChat (mkRetryConfig 0)
      (fun _ => .error (.generic "timeout")) (fun _ => false) =
      (.error (.maxRetriesExceeded (.generic "timeout")), 1) :=
  ⟨retry_exhaustion _ _ _ (fun _ => .generic "timeout")
      (fun _a _b => rfl) (fun _c _d => rfl) (fun _e => rfl),
    retry_exhaustion _ _ _ (fun _ => .generic "timeout")
      (fun _u _v => rfl) (fun _w _x => rfl) (fun _y => rfl)⟩

/-- C2 counterexample: an error whose type tag is `rate_limited` — not
one of the four non-retryable tags — is still classified non-retryable,
because `IsRetryableError` also scans the message for fixed keywords;
this refutes "every error with any other type tag is classified
retryable". -/
theorem isRetryable_other_tag_counterexample :
    IsRetryableError (.llm (mkLLMError "rate_limited" "invalid api key")) = false := by
  decide

/-- C2 amended: the four listed type tags are classified non-retryable
and `Chat` then returns the non-retryable error after exactly one
attempt; an error with any other type tag is classified retryable
unless its message contains `"invalid api key"`, `"authentication
failed"` or `"permission denied"`. -/
theorem isRetryable_classification (e₁ e₂ : LLMError)
    (cfg : RetryConfig) (client : Gateway) (cancelled : Nat → Bool)
    (h₁ : e₁.etype = "invalid_request" ∨ e₁.etype = "authentication_error" ∨
      e₁.etype = "permission_error" ∨ e₁.etype = "quota_exceeded")
    (hclient : client 0 = .error (.llm e₁))
    (h₂a : e₂.etype ≠ "invalid_request") (h₂b : e₂.etype ≠ "authentication_error")
    (h₂c : e₂.etype ≠ "permission_error") (h₂d : e₂.etype ≠ "quota_exceeded")
    (h₂e : strContains e₂.message "invalid api key" = false)
    (h₂f : strContains e₂.message "authentication failed" = false)
    (h₂g : strContains e₂.message "permission denied" = false) :
    IsRetryableError (.llm e₁) = false ∧
    retryChat cfg client cancelled = (.error (.nonRetryable (.llm e₁)), 1) ∧
    IsRetryableError (.llm e₂) = true := by
  have hne : IsRetryableError (.llm e₁) = false := by
    rcases h₁ with h | h | h | h <;> simp [IsRetryableError, h]
  refine ⟨hne, ?_, ?_⟩
  · unfold retryChat
    simp [retryChatAux, hclient, hne]
  · simp [IsRetryableError, GoError.message, h₂a, h₂b, h₂c, h₂d, h₂e, h₂f, h₂g]

/-- Witness for C2 amended: an `authentication_error` is rejected after
one attempt; a keyword-free `rate_limited` error is retryable. -/
theorem isRetryable_classification_witness :
    IsRetryableError (.llm (mkLLMError "authentication_error" "bad key")) = false ∧
    retryChat (mkRetryConfig 3)
      (fun _ => .error (.llm (mkLLMError "authentication_error" "bad key")))
      (fun _ => false) =
      (.error (.nonRetryable (.llm (mkLLMError "authentication_error" "bad key"))), 1) ∧
    IsRetryableError (.llm (mkLLMError "rate_limited" "too many requests")) = true :=
  by
  refine isRetryable_classification
    (mkLLMError "authentication_error" "bad key")
    (mkLLMError "rate_limited" "too many requests")
    _ _ _ (.inr (.inl rfl)) rfl ?_ ?_ ?_ ?_ ?_ ?_ ?_ <;> decide

/-- C9: at attempt 0 with the default configuration (base delay 1 s,
max delay 30 s) and a realistic wall clock (2ated Unix nanoseconds of
2020), `calculateDelay` returns the full 30 s `MaxDelay`, far outside
the ±10% jitter envelope around the 1 s exponential-backoff value that
both the claim and the code's own comment describe. -/
theorem calculateDelay_jitter_blowup :
    calculateDelay (mkRetryConfig 3) 0 1600000000000000000 = 30000000000 ∧
    (11 / 10 : ℚ) * backoffWithoutJitter (mkRetryConfig 3) 0 < (30000000000 : ℚ) := by
  constructor
  · norm_num [calculateDelay, durationOfRat, mkRetryConfig]
  · norm_num [backoffWithoutJitter, mkRetryConfig]

/-- C10: an empty tracker yields success rate 0 and average execution
time 0 (the zero-length guards fire instead of dividing by zero); a
non-empty tracker's success rate is the number of successful records
over the total count. -/
theorem tracker_aggregates (s₁ s₂ : List ToolExecutionStats)
    (h₁ : s₁ = []) (h₂ : s₂ ≠ []) :
    GetSuccessRate s₁ = 0 ∧ GetAverageExecutionTime s₁ = 0 ∧
    GetSuccessRate s₂ = ((s₂.filter (·.success)).length : ℚ) / (s₂.length : ℚ) := by
  subst h₁
  refine ⟨rfl, rfl, ?_⟩
  unfold GetSuccessRate
  rw [if_neg]
  simpa using h₂

/-- Witness for C10: the empty tracker and a two-record tracker with one
success. -/
theorem tracker_aggregates_witness :
    GetSuccessRate [] = 0 ∧ GetAverageExecutionTime [] = 0 ∧
    GetSuccessRate
      [{ toolName := "a", executionTime := 4, success := true },
       { toolName := "b", executionTime := 6, success := false }] =
      ((([{ toolName := "a", executionTime := 4, success := true },
          { toolName := "b", executionTime := 6, success := false }] :
            List ToolExecutionStats).filter (·.success)).length : ℚ) /
        (([{ toolName := "a", executionTime := 4, success := true },
           { toolName := "b", executionTime := 6, success := false }] :
             List ToolExecutionStats).length : ℚ) :=
  tracker_aggregates []
    [{ toolName := "a", executionTime := 4, success := true },
     { toolName := "b", executionTime := 6, success := false }]
    rfl (by decide)

/-- Helper: `AddExecutionStep` preserves the step-log invariant. -/
theorem stepsInv_add (s : LoopState) (action input output : String)
    (tc : Option ToolCall) (tr : Option ToolResultS) (hs : stepsInv s) :
    stepsInv (addExecutionStep s action input output tc tr) := by
  obtain ⟨h1, h2⟩ := hs
  unfold stepsInv addExecutionStep
  refine ⟨?_, by simp [h2]⟩
  simp only [List.map_append, List.length_append, List.map_cons, List.map_nil,
    List.length_cons, List.length_nil]
  rw [h1, h2, List.range'_concat]
  simp [Nat.add_comm]

/-- Helper: adding the first user message does not touch the step log. -/
theorem stepsInv_withUser (env : AgentEnv) (s : LoopState) (hs : stepsInv s) :
    stepsInv (withUserMessage env s) := by
  unfold withUserMessage
  split <;> exact hs

/-- Helper: the tool-call loop preserves the step-log invariant. -/
theorem stepsInv_runToolCalls (env : AgentEnv) :
    ∀ (calls : List ToolCall) (s : LoopState), stepsInv s →
      stepsInv (runToolCalls env calls s)
  | [], _, hs => hs
  | tc :: rest, s, hs => by
      unfold runToolCalls
      cases hreg : registryGet env.registry tc.function.name with
      | none => exact hs
      | some f =>
          exact stepsInv_runToolCalls env rest _
            (stepsInv_add _ "tool_execution" _ _ _ _ hs)

/-- Helper: one loop iteration preserves the step-log invariant. -/
theorem stepsInv_loopBody (env : AgentEnv) (s : LoopState) (hs : stepsInv s) :
    stepsInv (outState (loopBody env s)) := by
  have hw := stepsInv_withUser env s hs
  by_cases hlim : s.maxSteps ≤ s.stepCount
  · simp only [loopBody, if_pos hlim]
    exact hs
  · cases hchat : env.chat (withUserMessage env s).messages with
    | error err =>
        simp only [loopBody, if_neg hlim, hchat]
        exact hw
    | ok response =>
        have hok : stepsInv (afterChatOk env s response) := hw
        by_cases hempty : response.toolCalls.isEmpty = true
        · by_cases hcomp : isTaskComplete response.content = true
          · simp only [loopBody, if_neg hlim, hchat, hempty, hcomp, if_true]
            exact hok
          · simp only [loopBody, if_neg hlim, hchat, hempty, hcomp, if_true, if_false]
            exact stepsInv_add _ "llm_response" _ _ _ _ hok
        · have hcalls := stepsInv_runToolCalls env response.toolCalls _ hok
          by_cases hstop :
              shouldStopExecution (runToolCalls env response.toolCalls
                (afterChatOk env s response)) = true
          · simp only [loopBody, if_neg hlim, hchat, hempty, hstop, if_true, if_false]
            exact hcalls
          · simp only [loopBody, if_neg hlim, hchat, hempty, hstop, if_true, if_false]
            exact stepsInv_add _ "llm_response" _ _ _ _ hcalls

/-- Helper: the whole loop preserves the step-log invariant. -/
theorem stepsInv_loopRun (env : AgentEnv) :
    ∀ (fuel : Nat) (s : LoopState), stepsInv s → stepsInv (loopRun env fuel s)
  | 0, _, hs => hs
  | fuel + 1, s, hs => by
      unfold loopRun
      split
      · cases hb : loopBody env s with
        | cont s' =>
            have h' := stepsInv_loopBody env s hs
            rw [hb] at h'
            exact stepsInv_loopRun env fuel s' h'
        | halt s' =>
            have h' := stepsInv_loopBody env s hs
            rw [hb] at h'
            exact h'
      · exact hs

/-- Helper: when every named tool is registered, the tool-call loop
increments the step counter once per call. -/
theorem runToolCalls_stepCount (env : AgentEnv) :
    ∀ (calls : List ToolCall) (s : LoopState),
      (∀ tc ∈ calls, ∃ f, registryGet env.registry tc.function.name = some f) →
      (runToolCalls env calls s).stepCount = s.stepCount + calls.length
  | [], s, _ => by simp [runToolCalls]
  | tc :: rest, s, h => by
      obtain ⟨f, hf⟩ := h tc (by simp)
      have hrec := runToolCalls_stepCount env rest
      simp only [runToolCalls, hf]
      rw [hrec _ (fun tc' htc' => h tc' (by simp [htc']))]
      simp [addExecutionStep]
      omega

/-- C3 counterexample: with two registered tool calls in the model's
single response and `max_steps = 2`, one model call drives the step
counter from 0 to 3 (two `tool_execution` steps plus one `llm_response`
step), and the recorded step numbers 1, 2, 3 exceed the configured
`max_steps = 2` — refuting both "increments exactly once per full
iteration" and "bounded by the configured max_steps". -/
theorem step_counter_counterexample :
    (runTrae envTwoCalls 2 []).chatCalls = 1 ∧
    (runTrae envTwoCalls 2 []).stepCount = 3 ∧
    ((runTrae envTwoCalls 2 []).storedSteps.map (·.stepNumber)) = [1, 2, 3] ∧
    (runTrae envTwoCalls 2 []).maxSteps = 2 := by
  decide

/-- C3 amended: the step counter increments once per executed tool call
and once more at the end of every continuing iteration, so recorded
`step_number` values are strictly increasing (consecutively numbered
from 1), but they are not bounded by `max_steps` when a response
carries several tool calls. -/
theorem step_numbers_strictly_increasing (env env' : AgentEnv) (maxSteps : Nat)
    (hist : List LLMMessage) (calls : List ToolCall) (s : LoopState)
    (hfound : ∀ tc ∈ calls, ∃ f, registryGet env'.registry tc.function.name = some f) :
    ((runTrae env maxSteps hist).storedSteps.map (·.stepNumber) =
      List.range' 1 (runTrae env maxSteps hist).storedSteps.length) ∧
    (runToolCalls env' calls s).stepCount = s.stepCount + calls.length := by
  constructor
  · have hinit : stepsInv (initialState env maxSteps hist) := by
      constructor <;> simp [initialState]
    simp only [runTrae]
    split
    · exact hinit.1
    · exact (stepsInv_loopRun env maxSteps _ hinit).1
  · exact runToolCalls_stepCount env' calls s hfound

/-- Witness for C3 amended: the two-tool-call script, and a single tool
call advancing the counter by exactly one. -/
theorem step_numbers_witness :
    ((runTrae envTwoCalls 2 []).storedSteps.map (·.stepNumber) =
      List.range' 1 (runTrae envTwoCalls 2 []).storedSteps.length) ∧
    (runToolCalls envTwoCalls [mkToolCall "t"]
        (initialState envTwoCalls 2 [])).stepCount =
      (initialState envTwoCalls 2 []).stepCount + [mkToolCall "t"].length :=
  step_numbers_strictly_increasing envTwoCalls envTwoCalls 2 [] [mkToolCall "t"]
    (initialState envTwoCalls 2 [])
    (fun tc htc => by
      have h : tc = mkToolCall "t" := by simpa using htc
      subst h
      exact ⟨okToolFn "working", rfl⟩)

/-- C4 counterexample: on a response naming the unregistered tool
`ghost`, only the inner tool-call loop breaks — the outer loop goes on:
a second model call happens and the run even finishes successfully
(with the not-found text left in `execution.Error`), refuting "the run
terminates on a tool call naming a tool absent from the registry". -/
theorem unknown_tool_counterexample :
    (runTrae envGhost 3 []).chatCalls = 2 ∧
    (runTrae envGhost 3 []).exec.success = true ∧
    (runTrae envGhost 3 []).exec.error = "tool 'ghost' not found" := by
  decide

/-- C4 amended: a failing tool execution is captured as an unsuccessful
`ToolResult`, appended to the conversation, and processing continues
with the remaining calls and the next iteration; an unknown-tool
reference records a not-found error and skips the rest of that
response's calls, but also does not leave the loop; the loop exits only
on the step guard, a Model Gateway failure, or one of the two
completion heuristics. -/
theorem loop_error_handling
    (env₁ : AgentEnv) (tc₁ : ToolCall) (rest₁ : List ToolCall) (s₁ : LoopState)
    (f : ToolFn) (e : GoError)
    (hf : registryGet env₁.registry tc₁.function.name = some f)
    (he : f tc₁.function.arguments = .error e)
    (env₂ : AgentEnv) (tc₂ : ToolCall) (rest₂ : List ToolCall) (s₂ : LoopState)
    (hn : registryGet env₂.registry tc₂.function.name = none)
    (env₃ : AgentEnv) (s₃ s₃' : LoopState)
    (hhalt : loopBody env₃ s₃ = .halt s₃') :
    (∃ s', runToolCalls env₁ (tc₁ :: rest₁) s₁ = runToolCalls env₁ rest₁ s' ∧
      s'.exec.toolResults = s₁.exec.toolResults ++
        [{ callID := tc₁.id, name := tc₁.function.name, success := false,
           result := "", error := e.message }] ∧
      s'.messages = s₁.messages ++
        [{ role := "tool", content := "", name := "", toolCalls := [],
           toolCallID := tc₁.id, metadata := [] }] ∧
      s'.exec.error = s₁.exec.error ∧ s'.exec.success = s₁.exec.success) ∧
    (runToolCalls env₂ (tc₂ :: rest₂) s₂ =
      { s₂ with exec := { s₂.exec with
          error := "tool '" ++ tc₂.function.name ++ "' not found" } }) ∧
    (s₃.maxSteps ≤ s₃.stepCount ∨
      (∃ err, env₃.chat (withUserMessage env₃ s₃).messages = .error err) ∨
      (∃ r, env₃.chat (withUserMessage env₃ s₃).messages = .ok r ∧
        r.toolCalls.isEmpty = true ∧ isTaskComplete r.content = true) ∨
      (∃ r, env₃.chat (withUserMessage env₃ s₃).messages = .ok r ∧
        r.toolCalls.isEmpty = false ∧
        shouldStopExecution (runToolCalls env₃ r.toolCalls
          (afterChatOk env₃ s₃ r)) = true)) := by
  refine ⟨?_, ?_, ?_⟩
  · simp only [runToolCalls, hf, he]
    exact ⟨_, rfl, rfl, rfl, rfl, rfl⟩
  · simp only [runToolCalls, hn]
  · by_cases hlim : s₃.maxSteps ≤ s₃.stepCount
    · exact Or.inl hlim
    · cases hchat : env₃.chat (withUserMessage env₃ s₃).messages with
      | error err => exact Or.inr (Or.inl ⟨err, rfl⟩)
      | ok r =>
          simp only [loopBody, if_neg hlim, hchat] at hhalt
          by_cases hempty : r.toolCalls.isEmpty = true
          · by_cases hcomp : isTaskComplete r.content = true
            · exact Or.inr (Or.inr (Or.inl ⟨r, rfl, hempty, hcomp⟩))
            · simp [hempty, hcomp] at hhalt
          · by_cases hstop : shouldStopExecution (runToolCalls env₃ r.toolCalls
                (afterChatOk env₃ s₃ r)) = true
            · exact Or.inr (Or.inr (Or.inr ⟨r, rfl, by simpa using hempty, hstop⟩))
            · simp [hempty, hstop] at hhalt

/-- Witness for C4 amended: a failing registered tool, the unregistered
`ghost` tool, and a halt caused by the step guard. -/
theorem loop_error_handling_witness :
    (∃ s', runToolCalls envFailTool (mkToolCall "t" :: [])
        (initialState envFailTool 3 []) = runToolCalls envFailTool [] s' ∧
      s'.exec.toolResults = (initialState envFailTool 3 []).exec.toolResults ++
        [{ callID := (mkToolCall "t").id, name := (mkToolCall "t").function.name,
           success := false, result := "",
           error := (GoError.generic "boom").message }] ∧
      s'.messages = (initialState envFailTool 3 []).messages ++
        [{ role := "tool", content := "", name := "", toolCalls := [],
           toolCallID := (mkToolCall "t").id, metadata := [] }] ∧
      s'.exec.error = (initialState envFailTool 3 []).exec.error ∧
      s'.exec.success = (initialState envFailTool 3 []).exec.success) ∧
    (runToolCalls envGhost (mkToolCall "ghost" :: []) (initialState envGhost 3 []) =
      { initialState envGhost 3 [] with exec :=
        { (initialState envGhost 3 []).exec with
          error := "tool '" ++ (mkToolCall "ghost").function.name ++ "' not found" } }) ∧
    ((initialState envGhost 0 []).maxSteps ≤ (initialState envGhost 0 []).stepCount ∨
      (∃ err, envGhost.chat (withUserMessage envGhost
        (initialState envGhost 0 [])).messages = .error err) ∨
      (∃ r, envGhost.chat (withUserMessage envGhost
          (initialState envGhost 0 [])).messages = .ok r ∧
        r.toolCalls.isEmpty = true ∧ isTaskComplete r.content = true) ∨
      (∃ r, envGhost.chat (withUserMessage envGhost
          (initialState envGhost 0 [])).messages = .ok r ∧
        r.toolCalls.isEmpty = false ∧
        shouldStopExecution (runToolCalls envGhost r.toolCalls
          (afterChatOk envGhost (initialState envGhost 0 []) r)) = true)) :=
  loop_error_handling envFailTool (mkToolCall "t") [] (initialState envFailTool 3 [])
    failToolFn (.generic "boom") rfl rfl
    envGhost (mkToolCall "ghost") [] (initialState envGhost 3 []) rfl
    envGhost (initialState envGhost 0 []) _ rfl

/-! ### Cache map lemmas -/

/-- Helper: writing a key makes it readable. -/
theorem CacheMap.get_set_self :
    ∀ (m : CacheMap) (k : String) (e : CacheEntry), (m.set k e).get k = some e
  | [], k, e => by simp [CacheMap.set, CacheMap.get]
  | (k', e') :: rest, k, e => by
      by_cases h : k' = k
      · simp [CacheMap.set, CacheMap.get, h]
      · simp only [CacheMap.set, if_neg h, CacheMap.get, if_neg h]
        exact CacheMap.get_set_self rest k e

/-- Helper: a write grows the map by at most one entry. -/
theorem CacheMap.length_set_le :
    ∀ (m : CacheMap) (k : String) (e : CacheEntry),
      (m.set k e).length ≤ m.length + 1
  | [], _, _ => by simp [CacheMap.set]
  | (k', e') :: rest, k, e => by
      by_cases h : k' = k
      · simp [CacheMap.set, h]
      · simp only [CacheMap.set, if_neg h, List.length_cons]
        have := CacheMap.length_set_le rest k e
        omega

/-- Helper: overwriting a present key keeps the length. -/
theorem CacheMap.length_set_of_get :
    ∀ (m : CacheMap) (k : String) (e' e : CacheEntry),
      m.get k = some e' → (m.set k e).length = m.length
  | [], k, e', e, h => by simp [CacheMap.get] at h
  | (k'', e'') :: rest, k, e', e, h => by
      by_cases hk : k'' = k
      · simp [CacheMap.set, hk]
      · simp only [CacheMap.get, if_neg hk] at h
        simp only [CacheMap.set, if_neg hk, List.length_cons,
          CacheMap.length_set_of_get rest k e' e h]

/-- Helper: deleting never grows the map. -/
theorem CacheMap.length_del_le :
    ∀ (m : CacheMap) (k : String), (m.del k).length ≤ m.length
  | [], _ => by simp [CacheMap.del]
  | (k', e') :: rest, k => by
      by_cases h : k' = k
      · simp [CacheMap.del, h]
      · simp only [CacheMap.del, if_neg h, List.length_cons]
        have := CacheMap.length_del_le rest k
        omega

/-- Helper: deleting a readable key removes exactly one entry. -/
theorem CacheMap.length_del_of_get :
    ∀ (m : CacheMap) (k : String) (e : CacheEntry),
      m.get k = some e → (m.del k).length + 1 = m.length
  | [], k, e, h => by simp [CacheMap.get] at h
  | (k', e') :: rest, k, e, h => by
      by_cases hk : k' = k
      · simp [CacheMap.del, hk]
      · simp only [CacheMap.get, if_neg hk] at h
        simp only [CacheMap.del, if_neg hk, List.length_cons,
          CacheMap.length_del_of_get rest k e h]

/-- Helper: a member key is readable (possibly at an earlier entry). -/
theorem CacheMap.get_isSome_of_mem :
    ∀ (m : CacheMap) (p : String × CacheEntry), p ∈ m → ∃ e, m.get p.1 = some e
  | [], p, h => by simp at h
  | (k', e') :: rest, p, h => by
      by_cases hk : k' = p.1
      · exact ⟨e', by simp [CacheMap.get, hk]⟩
      · rcases List.mem_cons.mp h with h | h
        · exact absurd (congrArg Prod.fst h.symm) hk
        · simpa [CacheMap.get, if_neg hk] using
            CacheMap.get_isSome_of_mem rest p h

/-- Helper: entries of a written map are the new pair or old entries. -/
theorem CacheMap.mem_set :
    ∀ (m : CacheMap) (k : String) (e : CacheEntry) (p : String × CacheEntry),
      p ∈ m.set k e → p = (k, e) ∨ p ∈ m
  | [], k, e, p, h => by simpa [CacheMap.set] using h
  | (k', e') :: rest, k, e, p, h => by
      by_cases hk : k' = k
      · simp only [CacheMap.set, if_pos hk] at h
        rcases List.mem_cons.mp h with h | h
        · exact Or.inl h
        · exact Or.inr (List.mem_cons_of_mem _ h)
      · simp only [CacheMap.set, if_neg hk] at h
        rcases List.mem_cons.mp h with h | h
        · exact Or.inr (h ▸ List.mem_cons_self _ _)
        · rcases CacheMap.mem_set rest k e p h with h | h
          · exact Or.inl h
          · exact Or.inr (List.mem_cons_of_mem _ h)

/-- Helper: entries of a map after deletion were there before. -/
theorem CacheMap.mem_del :
    ∀ (m : CacheMap) (k : String) (p : String × CacheEntry),
      p ∈ m.del k → p ∈ m
  | [], _, p, h => by simp [CacheMap.del] at h
  | (k', e') :: rest, k, p, h => by
      by_cases hk : k' = k
      · simp only [CacheMap.del, if_pos hk] at h
        exact List.mem_cons_of_mem _ h
      · simp only [CacheMap.del, if_neg hk] at h
        rcases List.mem_cons.mp h with h | h
        · exact h ▸ List.mem_cons_self _ _
        · exact List.mem_cons_of_mem _ (CacheMap.mem_del rest k p h)

/-- Helper: the `evictLRU` scan returns one of the scanned entries. -/
theorem scanOldest_mem :
    ∀ (l : CacheMap) (best : String × CacheEntry), scanOldest best l ∈ best :: l
  | [], best => by simp [scanOldest]
  | e :: rest, best => by
      unfold scanOldest
      have hrec := scanOldest_mem rest (if e.2.timestamp < best.2.timestamp then e else best)
      rcases List.mem_cons.mp hrec with h | h
      · rw [h]
        split <;> simp
      · simp [h]

/-- Helper: the `evictLRU` scan returns an entry of minimal creation
timestamp. -/
theorem scanOldest_min :
    ∀ (l : CacheMap) (best : String × CacheEntry) (q : String × CacheEntry),
      q ∈ best :: l → (scanOldest best l).2.timestamp ≤ q.2.timestamp
  | [], best, q, hq => by
      rcases List.mem_cons.mp hq with h | h
      · simp [scanOldest, h]
      · simp at h
  | e :: rest, best, q, hq => by
      unfold scanOldest
      by_cases hcmp : e.2.timestamp < best.2.timestamp
      · simp only [if_pos hcmp]
        have hrec := scanOldest_min rest e
        have hb := hrec e (List.mem_cons_self _ _)
        rcases List.mem_cons.mp hq with h | h
        · subst h
          omega
        · rcases List.mem_cons.mp h with h | h
          · subst h
            exact hb
          · exact hrec q (List.mem_cons_of_mem _ h)
      · simp only [if_neg hcmp]
        have hrec := scanOldest_min rest best
        have hb := hrec best (List.mem_cons_self _ _)
        rcases List.mem_cons.mp hq with h | h
        · subst h
          exact hb
        · rcases List.mem_cons.mp h with h | h
          · subst h
            omega
          · exact hrec q (List.mem_cons_of_mem _ h)

/-- Helper: a readable key's entry is in the map. -/
theorem CacheMap.mem_of_get :
    ∀ (m : CacheMap) (k : String) (e : CacheEntry), m.get k = some e → (k, e) ∈ m
  | [], k, e, h => by simp [CacheMap.get] at h
  | (k', e') :: rest, k, e, h => by
      by_cases hk : k' = k
      · simp only [CacheMap.get, if_pos hk] at h
        subst hk
        cases h
        exact List.mem_cons_self _ _
      · simp only [CacheMap.get, if_neg hk] at h
        exact List.mem_cons_of_mem _ (CacheMap.mem_of_get rest k e h)

/-- Helper: `evictLRU` never changes the configuration. -/
theorem evictLRU_config (mc : MemoryCache) : mc.evictLRU.config = mc.config := by
  unfold MemoryCache.evictLRU
  split
  · rfl
  · dsimp only
    split <;> rfl

/-- Helper: on a non-empty map whose keys are all nonempty, `evictLRU`
removes exactly one entry. -/
theorem evictLRU_length (mc : MemoryCache)
    (hgood : ∀ p ∈ mc.cache, p.1 ≠ "") (e : String × CacheEntry) (rest : CacheMap)
    (hc : mc.cache = e :: rest) :
    mc.evictLRU.cache.length + 1 = mc.cache.length := by
  unfold MemoryCache.evictLRU
  rw [hc]
  have hmem : scanOldest e rest ∈ mc.cache := by
    rw [hc]
    exact scanOldest_mem rest e
  have hkey : (scanOldest e rest).1 ≠ "" := hgood _ hmem
  obtain ⟨e', hget⟩ := CacheMap.get_isSome_of_mem mc.cache _ hmem
  rw [hc] at hget
  simp only [if_pos hkey]
  exact CacheMap.length_del_of_get (e :: rest) _ e' hget

/-- Helper: entries surviving `evictLRU` were already present. -/
theorem evictLRU_mem (mc : MemoryCache) (p : String × CacheEntry)
    (hp : p ∈ mc.evictLRU.cache) : p ∈ mc.cache := by
  obtain ⟨cfg, cache, stats⟩ := mc
  cases cache with
  | nil => exact hp
  | cons e rest =>
      simp only [MemoryCache.evictLRU] at hp
      split at hp
      · exact CacheMap.mem_del _ _ _ hp
      · exact hp

/-- Helper: `evictLRU` never grows the map. -/
theorem evictLRU_length_le (mc : MemoryCache) :
    mc.evictLRU.cache.length ≤ mc.cache.length := by
  obtain ⟨cfg, cache, stats⟩ := mc
  cases cache with
  | nil => exact le_refl _
  | cons e rest =>
      simp only [MemoryCache.evictLRU]
      split
      · exact CacheMap.length_del_le _ _
      · exact le_refl _

/-- Helper: what `Set` stores, spelled out. -/
theorem Set_cache (mc : MemoryCache) (now : Nat) (k : String) (m : LLMMessage) :
    (mc.Set now k m).cache =
      ((if mc.cache.length ≥ mc.config.maxSize then mc.evictLRU else mc).cache).set k
        { response := m, timestamp := now, expiration := now + mc.config.ttl,
          hitCount := 0 } := by
  simp only [MemoryCache.Set]
  split
  · rw [evictLRU_config]
  · rfl

/-- Helper: `Set` never changes the configuration. -/
theorem Set_config (mc : MemoryCache) (now : Nat) (k : String) (m : LLMMessage) :
    (mc.Set now k m).config = mc.config := by
  simp only [MemoryCache.Set]
  split
  · exact evictLRU_config mc
  · rfl

/-- Helper: `Get` on a present, unexpired key. -/
theorem Get_hit (mc : MemoryCache) (now : Nat) (key : String) (entry : CacheEntry)
    (hget : mc.cache.get key = some entry) (hexp : ¬ now > entry.expiration) :
    (mc.Get now key).1 = some entry.response ∧
    (mc.Get now key).2.stats.hits = mc.stats.hits + 1 ∧
    (mc.Get now key).2.config = mc.config ∧
    (mc.Get now key).2.cache =
      mc.cache.set key { entry with hitCount := entry.hitCount + 1 } := by
  unfold MemoryCache.Get
  rw [hget]
  dsimp only
  rw [if_neg hexp]
  exact ⟨rfl, by split <;> rfl, rfl, rfl⟩

/-- Helper: `Get` on an absent key. -/
theorem Get_miss (mc : MemoryCache) (now : Nat) (key : String)
    (h : mc.cache.get key = none) :
    (mc.Get now key).1 = none ∧
    (mc.Get now key).2.stats.misses = mc.stats.misses + 1 ∧
    (mc.Get now key).2.cache = mc.cache ∧
    (mc.Get now key).2.config = mc.config := by
  unfold MemoryCache.Get
  rw [h]
  exact ⟨rfl, rfl, rfl, rfl⟩

/-- Helper: `Get` on an expired key. -/
theorem Get_expired (mc : MemoryCache) (now : Nat) (key : String) (entry : CacheEntry)
    (hget : mc.cache.get key = some entry) (hexp : now > entry.expiration) :
    (mc.Get now key).1 = none ∧
    (mc.Get now key).2.stats.misses = mc.stats.misses + 1 ∧
    (mc.Get now key).2.stats.evictions = mc.stats.evictions + 1 ∧
    (mc.Get now key).2.cache = mc.cache.del key ∧
    (mc.Get now key).2.config = mc.config := by
  unfold MemoryCache.Get
  rw [hget]
  dsimp only
  rw [if_pos hexp]
  exact ⟨rfl, rfl, rfl, rfl, rfl⟩

/-- Helper: each cache operation keeps the configuration, the size
bound, and the all-keys-nonempty property. -/
theorem cache_applyOp_inv (op : CacheOp) (hop : op.keyOK) (mc : MemoryCache)
    (hmax : 1 ≤ mc.config.maxSize)
    (hlen : mc.cache.length ≤ mc.config.maxSize)
    (hgood : ∀ p ∈ mc.cache, p.1 ≠ "") :
    (mc.applyOp op).config = mc.config ∧
    (mc.applyOp op).cache.length ≤ mc.config.maxSize ∧
    (∀ p ∈ (mc.applyOp op).cache, p.1 ≠ "") := by
  cases op with
  | set now key msg =>
      simp only [MemoryCache.applyOp]
      refine ⟨Set_config mc now key msg, ?_, ?_⟩
      · rw [Set_cache]
        split
        · rename_i hcap
          cases hc : mc.cache with
          | nil => simp [hc] at hcap; omega
          | cons e rest =>
              have h1 := evictLRU_length mc hgood e rest hc
              have h2 := CacheMap.length_set_le mc.evictLRU.cache key
                { response := msg, timestamp := now,
                  expiration := now + mc.config.ttl, hitCount := 0 }
              rw [hc] at h1 hlen
              omega
        · rename_i hcap
          have h2 := CacheMap.length_set_le mc.cache key
            { response := msg, timestamp := now,
              expiration := now + mc.config.ttl, hitCount := 0 }
          simp only [ge_iff_le, not_le] at hcap
          omega
      · intro p hp
        rw [Set_cache] at hp
        rcases CacheMap.mem_set _ _ _ _ hp with h | h
        · rw [h]
          exact hop
        · split at h
          · exact hgood _ (evictLRU_mem mc _ h)
          · exact hgood _ h
  | get now key =>
      cases hget : mc.cache.get key with
      | none =>
          obtain ⟨_, _, hcache, hcfg⟩ := Get_miss mc now key hget
          exact ⟨hcfg, by rw [MemoryCache.applyOp, hcache]; exact hlen,
            by rw [MemoryCache.applyOp, hcache]; exact hgood⟩
      | some entry =>
          by_cases hexp : now > entry.expiration
          · obtain ⟨_, _, _, hcache, hcfg⟩ := Get_expired mc now key entry hget hexp
            refine ⟨hcfg, ?_, ?_⟩
            · rw [MemoryCache.applyOp, hcache]
              exact le_trans (CacheMap.length_del_le _ _) hlen
            · intro p hp
              rw [MemoryCache.applyOp, hcache] at hp
              exact hgood _ (CacheMap.mem_del _ _ _ hp)
          · obtain ⟨_, _, hcfg, hcache⟩ := Get_hit mc now key entry hget hexp
            refine ⟨hcfg, ?_, ?_⟩
            · rw [MemoryCache.applyOp, hcache,
                CacheMap.length_set_of_get mc.cache key entry _ hget]
              exact hlen
            · intro p hp
              rw [MemoryCache.applyOp, hcache] at hp
              rcases CacheMap.mem_set _ _ _ _ hp with h | h
              · have hkey : key ≠ "" :=
                  hgood _ (CacheMap.mem_of_get mc.cache key entry hget)
                rw [h]
                exact hkey
              · exact hgood _ h
  | del key =>
      cases hget : mc.cache.get key with
      | none =>
          simp only [MemoryCache.applyOp, MemoryCache.Delete, hget]
          exact ⟨by trivial, hlen, hgood⟩
      | some entry =>
          simp only [MemoryCache.applyOp, MemoryCache.Delete, hget]
          refine ⟨by trivial, le_trans (CacheMap.length_del_le _ _) hlen, ?_⟩
          intro p hp
          exact hgood _ (CacheMap.mem_del _ _ _ hp)
  | cleanup now =>
      simp only [MemoryCache.applyOp, MemoryCache.Cleanup]
      refine ⟨by trivial, le_trans (List.length_filter_le _ _) hlen, ?_⟩
      intro p hp
      exact hgood _ (List.mem_filter.mp hp).1

/-- Helper: the invariant holds along any operation sequence. -/
theorem cache_applyOps_inv :
    ∀ (ops : List CacheOp) (mc : MemoryCache), (∀ op ∈ ops, op.keyOK) →
      1 ≤ mc.config.maxSize →
      mc.cache.length ≤ mc.config.maxSize → (∀ p ∈ mc.cache, p.1 ≠ "") →
      (mc.applyOps ops).config = mc.config ∧
      (mc.applyOps ops).cache.length ≤ mc.config.maxSize ∧
      (∀ p ∈ (mc.applyOps ops).cache, p.1 ≠ "")
  | [], mc, _, _, hlen, hgood => ⟨rfl, hlen, hgood⟩
  | op :: ops, mc, hops, hmax, hlen, hgood => by
      obtain ⟨hcfg, hlen', hgood'⟩ :=
        cache_applyOp_inv op (hops op (List.mem_cons_self _ _)) mc hmax hlen hgood
      obtain ⟨hcfg2, hlen2, hgood2⟩ :=
        cache_applyOps_inv ops (mc.applyOp op)
          (fun o ho => hops o (List.mem_cons_of_mem _ ho))
          (by rw [hcfg]; exact hmax)
          (by rw [hcfg]; exact hlen') hgood'
      refine ⟨?_, ?_, ?_⟩
      · show ((mc.applyOp op).applyOps ops).config = mc.config
        rw [hcfg2, hcfg]
      · show ((mc.applyOp op).applyOps ops).cache.length ≤ mc.config.maxSize
        rw [hcfg] at hlen2
        exact hlen2
      · show ∀ p ∈ ((mc.applyOp op).applyOps ops).cache, p.1 ≠ ""
        exact hgood2

/-- C7 counterexample: with `MaxSize = 0` a single `Set` leaves one
entry (`len >= 0` always holds but `evictLRU` on an empty map is a
no-op before the insert); and with `MaxSize = 1` an entry keyed by the
empty string is never evicted (`oldestKey != ""`), so a second insert
reaches 2 entries — both runs exceed the configured bound. -/
theorem cache_size_counterexample :
    ((NewMemoryCache { maxSize := 0, ttl := 10 }).Set 0 "k"
      (asstMsg "hello" [])).cache.length = 1 ∧
    (((NewMemoryCache { maxSize := 1, ttl := 10 }).Set 0 ""
        (asstMsg "hello" [])).Set 1 "k" (asstMsg "hello" [])).cache.length = 2 := by
  exact ⟨rfl, rfl⟩

/-- C7 amended: provided the configured max size is at least 1 and no
`Set` uses the empty string as key, the number of stored entries never
exceeds the max size along any Set/Get/Delete/Cleanup sequence from a
fresh cache; and a `Set` on a cache at capacity first deletes an entry
whose creation timestamp is minimal. -/
theorem cache_size_bound (config : CacheConfig) (ops : List CacheOp)
    (hmax : 1 ≤ config.maxSize) (hkeys : ∀ op ∈ ops, op.keyOK)
    (mc : MemoryCache) (now : Nat) (key : String) (msg : LLMMessage)
    (e : String × CacheEntry) (rest : CacheMap) (hc : mc.cache = e :: rest)
    (hcap : mc.config.maxSize ≤ mc.cache.length)
    (hgood : ∀ p ∈ mc.cache, p.1 ≠ "") :
    ((NewMemoryCache config).applyOps ops).cache.length ≤ config.maxSize ∧
    scanOldest e rest ∈ mc.cache ∧
    (∀ q ∈ mc.cache, (scanOldest e rest).2.timestamp ≤ q.2.timestamp) ∧
    (mc.Set now key msg).cache =
      (mc.cache.del (scanOldest e rest).1).set key
        { response := msg, timestamp := now,
          expiration := now + mc.config.ttl, hitCount := 0 } := by
  refine ⟨?_, ?_, ?_, ?_⟩
  · exact (cache_applyOps_inv ops (NewMemoryCache config) hkeys
      (by simpa [NewMemoryCache] using hmax)
      (by simp [NewMemoryCache]) (by simp [NewMemoryCache])).2.1
  · rw [hc]
    exact scanOldest_mem rest e
  · intro q hq
    rw [hc] at hq
    exact scanOldest_min rest e q hq
  · have hkey : (scanOldest e rest).1 ≠ "" := by
      refine hgood _ ?_
      rw [hc]
      exact scanOldest_mem rest e
    rw [Set_cache, if_pos hcap]
    congr 1
    unfold MemoryCache.evictLRU
    rw [hc]
    simp only [if_pos hkey]

/-- Witness for C7 amended: three distinct inserts into a size-2 cache,
and a `Set` on `mcAtCap` evicting the older `"b"` entry. -/
theorem cache_size_bound_witness :
    ((NewMemoryCache { maxSize := 2, ttl := 10 }).applyOps
      [.set 0 "a" (asstMsg "ra" []), .set 1 "b" (asstMsg "rb" []),
       .set 2 "c" (asstMsg "rc" [])]).cache.length ≤
      ({ maxSize := 2, ttl := 10 } : CacheConfig).maxSize ∧
    scanOldest ("a", entryAt "ra" 5) [("b", entryAt "rb" 3)] ∈ mcAtCap.cache ∧
    (∀ q ∈ mcAtCap.cache,
      (scanOldest ("a", entryAt "ra" 5) [("b", entryAt "rb" 3)]).2.timestamp ≤
        q.2.timestamp) ∧
    (mcAtCap.Set 20 "c" (asstMsg "rc" [])).cache =
      (mcAtCap.cache.del
          (scanOldest ("a", entryAt "ra" 5) [("b", entryAt "rb" 3)]).1).set "c"
        { response := asstMsg "rc" [], timestamp := 20,
          expiration := 20 + mcAtCap.config.ttl, hitCount := 0 } :=
  cache_size_bound { maxSize := 2, ttl := 10 }
    [.set 0 "a" (asstMsg "ra" []), .set 1 "b" (asstMsg "rb" []),
     .set 2 "c" (asstMsg "rc" [])]
    (by decide)
    (by
      intro op hop
      simp only [List.mem_cons, List.not_mem_nil, or_false] at hop
      rcases hop with rfl | rfl | rfl <;> simp [CacheOp.keyOK])
    mcAtCap 20 "c" (asstMsg "rc" []) ("a", entryAt "ra" 5) [("b", entryAt "rb" 3)]
    rfl (by decide)
    (by
      intro p hp
      simp only [mcAtCap, List.mem_cons, List.not_mem_nil, or_false] at hp
      rcases hp with rfl | rfl <;> decide)

/-- C8 counterexample: at exactly `insertion time + TTL` (here 0 + 5 at
instant 5) the entry is still returned — `time.Now().After(expiration)`
is strict — so "not retrievable at time ≥ insertion + t" fails at the
boundary, and no miss is counted. -/
theorem cache_expiry_boundary_counterexample :
    (((NewMemoryCache { maxSize := 10, ttl := 5 }).Set 0 "k"
        (asstMsg "hello" [])).Get 5 "k").1 = some (asstMsg "hello" []) ∧
    (((NewMemoryCache { maxSize := 10, ttl := 5 }).Set 0 "k"
        (asstMsg "hello" [])).Get 5 "k").2.stats.misses = 0 := by
  exact ⟨rfl, rfl⟩

/-- C8 amended: `Set` then `Get` on the same key at any time up to and
including `insertion + TTL` returns exactly the stored message and
increments hits by one; a `Get` on an absent key returns none and
increments misses by one leaving the map unchanged; a `Get` strictly
after `insertion + TTL` returns none, increments misses and evictions
by one, and deletes the entry. -/
theorem cache_get_semantics
    (mc₁ : MemoryCache) (now₁ t₁ : Nat) (k₁ : String) (m₁ : LLMMessage)
    (h₁ : t₁ ≤ now₁ + mc₁.config.ttl)
    (mc₂ : MemoryCache) (now₂ : Nat) (k₂ : String)
    (h₂ : mc₂.cache.get k₂ = none)
    (mc₃ : MemoryCache) (now₃ t₃ : Nat) (k₃ : String) (m₃ : LLMMessage)
    (h₃ : now₃ + mc₃.config.ttl < t₃) :
    (((mc₁.Set now₁ k₁ m₁).Get t₁ k₁).1 = some m₁ ∧
      ((mc₁.Set now₁ k₁ m₁).Get t₁ k₁).2.stats.hits =
        (mc₁.Set now₁ k₁ m₁).stats.hits + 1) ∧
    ((mc₂.Get now₂ k₂).1 = none ∧
      (mc₂.Get now₂ k₂).2.stats.misses = mc₂.stats.misses + 1 ∧
      (mc₂.Get now₂ k₂).2.cache = mc₂.cache) ∧
    (((mc₃.Set now₃ k₃ m₃).Get t₃ k₃).1 = none ∧
      ((mc₃.Set now₃ k₃ m₃).Get t₃ k₃).2.stats.misses =
        (mc₃.Set now₃ k₃ m₃).stats.misses + 1 ∧
      ((mc₃.Set now₃ k₃ m₃).Get t₃ k₃).2.stats.evictions =
        (mc₃.Set now₃ k₃ m₃).stats.evictions + 1 ∧
      ((mc₃.Set now₃ k₃ m₃).Get t₃ k₃).2.cache =
        (mc₃.Set now₃ k₃ m₃).cache.del k₃) := by
  refine ⟨?_, ?_, ?_⟩
  · have hget : (mc₁.Set now₁ k₁ m₁).cache.get k₁ = some
        { response := m₁, timestamp := now₁,
          expiration := now₁ + mc₁.config.ttl, hitCount := 0 } := by
      rw [Set_cache]
      exact CacheMap.get_set_self _ _ _
    have hexp : ¬ t₁ >
        ({ response := m₁, timestamp := now₁,
           expiration := now₁ + mc₁.config.ttl, hitCount := 0 } : CacheEntry).expiration := by
      simp only [gt_iff_lt, not_lt]
      exact h₁
    obtain ⟨ha, hb, _, _⟩ := Get_hit _ t₁ k₁ _ hget hexp
    exact ⟨ha, hb⟩
  · obtain ⟨ha, hb, hcache, _⟩ := Get_miss mc₂ now₂ k₂ h₂
    exact ⟨ha, hb, hcache⟩
  · have hget : (mc₃.Set now₃ k₃ m₃).cache.get k₃ = some
        { response := m₃, timestamp := now₃,
          expiration := now₃ + mc₃.config.ttl, hitCount := 0 } := by
      rw [Set_cache]
      exact CacheMap.get_set_self _ _ _
    have hexp : t₃ >
        ({ response := m₃, timestamp := now₃,
           expiration := now₃ + mc₃.config.ttl, hitCount := 0 } : CacheEntry).expiration := h₃
    obtain ⟨ha, hb, hev, hcache, _⟩ := Get_expired _ t₃ k₃ _ hget hexp
    exact ⟨ha, hb, hev, hcache⟩

/-- Witness for C8 amended: a fresh TTL-5 cache — read back at 3,
missed on an absent key, and expired at 6. -/
theorem cache_get_semantics_witness :
    ((((NewMemoryCache { maxSize := 10, ttl := 5 }).Set 0 "k"
        (asstMsg "hello" [])).Get 3 "k").1 = some (asstMsg "hello" []) ∧
      (((NewMemoryCache { maxSize := 10, ttl := 5 }).Set 0 "k"
        (asstMsg "hello" [])).Get 3 "k").2.stats.hits =
        ((NewMemoryCache { maxSize := 10, ttl := 5 }).Set 0 "k"
          (asstMsg "hello" [])).stats.hits + 1) ∧
    (((NewMemoryCache { maxSize := 10, ttl := 5 }).Get 7 "absent").1 = none ∧
      ((NewMemoryCache { maxSize := 10, ttl := 5 }).Get 7 "absent").2.stats.misses =
        (NewMemoryCache { maxSize := 10, ttl := 5 }).stats.misses + 1 ∧
      ((NewMemoryCache { maxSize := 10, ttl := 5 }).Get 7 "absent").2.cache =
        (NewMemoryCache { maxSize := 10, ttl := 5 }).cache) ∧
    ((((NewMemoryCache { maxSize := 10, ttl := 5 }).Set 0 "k"
        (asstMsg "hello" [])).Get 6 "k").1 = none ∧
      (((NewMemoryCache { maxSize := 10, ttl := 5 }).Set 0 "k"
        (asstMsg "hello" [])).Get 6 "k").2.stats.misses =
        ((NewMemoryCache { maxSize := 10, ttl := 5 }).Set 0 "k"
          (asstMsg "hello" [])).stats.misses + 1 ∧
      (((NewMemoryCache { maxSize := 10, ttl := 5 }).Set 0 "k"
        (asstMsg "hello" [])).Get 6 "k").2.stats.evictions =
        ((NewMemoryCache { maxSize := 10, ttl := 5 }).Set 0 "k"
          (asstMsg "hello" [])).stats.evictions + 1 ∧
      (((NewMemoryCache { maxSize := 10, ttl := 5 }).Set 0 "k"
        (asstMsg "hello" [])).Get 6 "k").2.cache =
        ((NewMemoryCache { maxSize := 10, ttl := 5 }).Set 0 "k"
          (asstMsg "hello" [])).cache.del "k") :=
  cache_get_semantics (NewMemoryCache { maxSize := 10, ttl := 5 }) 0 3 "k"
    (asstMsg "hello" []) (by decide)
    (NewMemoryCache { maxSize := 10, ttl := 5 }) 7 "absent" rfl
    (NewMemoryCache { maxSize := 10, ttl := 5 }) 0 6 "k"
    (asstMsg "hello" []) (by decide)

/-- Helper: `Get` never changes the configuration. -/
theorem Get_config (mc : MemoryCache) (now : Nat) (key : String) :
    (mc.Get now key).2.config = mc.config := by
  unfold MemoryCache.Get
  cases h : mc.cache.get key with
  | none => rfl
  | some entry =>
      dsimp only
      split
      · rfl
      · rfl

/-- Helper: `CachedLLMClient.Chat` on a cache hit. -/
theorem cachedChat_hit (client : UClient) (provider : String) (st : CachedState)
    (now : Nat) (msgs : List LLMMessage) (tools : List ToolS) (model : String)
    (entry : CacheEntry)
    (hget : st.mc.cache.get (generateCacheKey msgs tools model provider) = some entry)
    (hexp : ¬ now > entry.expiration) :
    cachedChat client provider st now msgs tools model =
      (.ok entry.response,
        { st with mc := (st.mc.Get now
            (generateCacheKey msgs tools model provider)).2 }) := by
  have h1 := (Get_hit st.mc now _ entry hget hexp).1
  simp only [cachedChat]
  cases hG : st.mc.Get now (generateCacheKey msgs tools model provider) with
  | mk o mc' =>
      rw [hG] at h1
      dsimp at h1
      subst h1
      rfl

/-- Helper: `CachedLLMClient.Chat` on a miss answered by the gateway. -/
theorem cachedChat_miss_ok (client : UClient) (provider : String) (st : CachedState)
    (now : Nat) (msgs : List LLMMessage) (tools : List ToolS) (model : String)
    (r : LLMMessage)
    (hmiss : (st.mc.Get now (generateCacheKey msgs tools model provider)).1 = none)
    (hok : client msgs tools model = .ok r) :
    cachedChat client provider st now msgs tools model =
      (.ok r,
        { mc := ((st.mc.Get now (generateCacheKey msgs tools model provider)).2).Set
            now (generateCacheKey msgs tools model provider) r,
          calls := st.calls + 1 }) := by
  simp only [cachedChat]
  cases hG : st.mc.Get now (generateCacheKey msgs tools model provider) with
  | mk o mc' =>
      rw [hG] at hmiss
      dsimp at hmiss
      subst hmiss
      rw [hok]

/-- Helper: `CachedLLMClient.Chat` on a miss the gateway fails. -/
theorem cachedChat_miss_err (client : UClient) (provider : String) (st : CachedState)
    (now : Nat) (msgs : List LLMMessage) (tools : List ToolS) (model : String)
    (e : GoError)
    (hmiss : (st.mc.Get now (generateCacheKey msgs tools model provider)).1 = none)
    (herr : client msgs tools model = .error e) :
    cachedChat client provider st now msgs tools model =
      (.error e,
        { mc := (st.mc.Get now (generateCacheKey msgs tools model provider)).2,
          calls := st.calls + 1 }) := by
  simp only [cachedChat]
  cases hG : st.mc.Get now (generateCacheKey msgs tools model provider) with
  | mk o mc' =>
      rw [hG] at hmiss
      dsimp at hmiss
      subst hmiss
      rw [herr]

/-- C5: the cached wrapper returns a live cached response without
consulting the underlying gateway; on a miss it consults the gateway
once, stores a successful response under the request key, and returns
it; a gateway error is propagated unchanged and nothing is stored; and
an immediate replay of a missed-then-answered request within the TTL is
served from the cache with no further underlying call. -/
theorem cached_chat_semantics
    (client₁ : UClient) (provider₁ : String) (st₁ : CachedState) (now₁ : Nat)
    (msgs₁ : List LLMMessage) (tools₁ : List ToolS) (model₁ : String)
    (entry₁ : CacheEntry)
    (hget₁ : st₁.mc.cache.get (generateCacheKey msgs₁ tools₁ model₁ provider₁) =
      some entry₁)
    (hexp₁ : ¬ now₁ > entry₁.expiration)
    (client₂ : UClient) (provider₂ : String) (st₂ : CachedState) (now₂ t₂ : Nat)
    (msgs₂ : List LLMMessage) (tools₂ : List ToolS) (model₂ : String)
    (r₂ : LLMMessage)
    (hmiss₂ : (st₂.mc.Get now₂ (generateCacheKey msgs₂ tools₂ model₂ provider₂)).1 =
      none)
    (hok₂ : client₂ msgs₂ tools₂ model₂ = .ok r₂)
    (ht₂ : t₂ ≤ now₂ + st₂.mc.config.ttl)
    (client₃ : UClient) (provider₃ : String) (st₃ : CachedState) (now₃ : Nat)
    (msgs₃ : List LLMMessage) (tools₃ : List ToolS) (model₃ : String)
    (e₃ : GoError)
    (hmiss₃ : (st₃.mc.Get now₃ (generateCacheKey msgs₃ tools₃ model₃ provider₃)).1 =
      none)
    (herr₃ : client₃ msgs₃ tools₃ model₃ = .error e₃) :
    ((cachedChat client₁ provider₁ st₁ now₁ msgs₁ tools₁ model₁).1 =
        .ok entry₁.response ∧
      (cachedChat client₁ provider₁ st₁ now₁ msgs₁ tools₁ model₁).2.calls =
        st₁.calls) ∧
    ((cachedChat client₂ provider₂ st₂ now₂ msgs₂ tools₂ model₂).1 = .ok r₂ ∧
      (cachedChat client₂ provider₂ st₂ now₂ msgs₂ tools₂ model₂).2.calls =
        st₂.calls + 1 ∧
      (cachedChat client₂ provider₂ st₂ now₂ msgs₂ tools₂
          model₂).2.mc.cache.get (generateCacheKey msgs₂ tools₂ model₂ provider₂) =
        some { response := r₂, timestamp := now₂,
               expiration := now₂ + st₂.mc.config.ttl, hitCount := 0 }) ∧
    ((cachedChat client₃ provider₃ st₃ now₃ msgs₃ tools₃ model₃).1 = .error e₃ ∧
      (cachedChat client₃ provider₃ st₃ now₃ msgs₃ tools₃ model₃).2.calls =
        st₃.calls + 1 ∧
      (cachedChat client₃ provider₃ st₃ now₃ msgs₃ tools₃ model₃).2.mc.cache =
        (st₃.mc.Get now₃ (generateCacheKey msgs₃ tools₃ model₃ provider₃)).2.cache) ∧
    ((cachedChat client₂ provider₂
        (cachedChat client₂ provider₂ st₂ now₂ msgs₂ tools₂ model₂).2
        t₂ msgs₂ tools₂ model₂).1 = .ok r₂ ∧
      (cachedChat client₂ provider₂
        (cachedChat client₂ provider₂ st₂ now₂ msgs₂ tools₂ model₂).2
        t₂ msgs₂ tools₂ model₂).2.calls =
        (cachedChat client₂ provider₂ st₂ now₂ msgs₂ tools₂ model₂).2.calls) := by
  have hfirst₂ := cachedChat_miss_ok client₂ provider₂ st₂ now₂ msgs₂ tools₂ model₂
    r₂ hmiss₂ hok₂
  have hstore₂ : ((st₂.mc.Get now₂
      (generateCacheKey msgs₂ tools₂ model₂ provider₂)).2.Set now₂
      (generateCacheKey msgs₂ tools₂ model₂ provider₂) r₂).cache.get
      (generateCacheKey msgs₂ tools₂ model₂ provider₂) =
      some { response := r₂, timestamp := now₂,
             expiration := now₂ + st₂.mc.config.ttl, hitCount := 0 } := by
    rw [Set_cache, Get_config]
    exact CacheMap.get_set_self _ _ _
  have hreplay := cachedChat_hit client₂ provider₂
    { mc := ((st₂.mc.Get now₂ (generateCacheKey msgs₂ tools₂ model₂ provider₂)).2).Set
        now₂ (generateCacheKey msgs₂ tools₂ model₂ provider₂) r₂,
      calls := st₂.calls + 1 }
    t₂ msgs₂ tools₂ model₂
    { response := r₂, timestamp := now₂,
      expiration := now₂ + st₂.mc.config.ttl, hitCount := 0 }
    hstore₂ (by simp only [gt_iff_lt, not_lt]; exact ht₂)
  have hone := cachedChat_hit client₁ provider₁ st₁ now₁ msgs₁ tools₁ model₁
    entry₁ hget₁ hexp₁
  have hthree := cachedChat_miss_err client₃ provider₃ st₃ now₃ msgs₃ tools₃ model₃
    e₃ hmiss₃ herr₃
  refine ⟨⟨?_, ?_⟩, ⟨?_, ?_, ?_⟩, ⟨?_, ⟨?_, ?_⟩⟩, ⟨?_, ?_⟩⟩
  · rw [hone]
  · rw [hone]
  · rw [hfirst₂]
  · rw [hfirst₂]
  · rw [hfirst₂]
    exact hstore₂
  · rw [hthree]
  · rw [hthree]
  · rw [hthree]
  · rw [hfirst₂]
    rw [hreplay]
  · rw [hfirst₂]
    rw [hreplay]

/-- Witness for C5: a pre-populated cache hit, a miss answered and
stored, a failing gateway, and a within-TTL replay with no second
underlying call. -/
theorem cached_chat_semantics_witness :
    ((cachedChat okClient "p" stWithKey 0 [] [] "m").1 =
        .ok (entryAt "r" 0).response ∧
      (cachedChat okClient "p" stWithKey 0 [] [] "m").2.calls = stWithKey.calls) ∧
    ((cachedChat okClient "p" stEmpty 0 [] [] "m").1 = .ok (asstMsg "resp" []) ∧
      (cachedChat okClient "p" stEmpty 0 [] [] "m").2.calls = stEmpty.calls + 1 ∧
      (cachedChat okClient "p" stEmpty 0 [] [] "m").2.mc.cache.get
          (generateCacheKey [] [] "m" "p") =
        some { response := asstMsg "resp" [], timestamp := 0,
               expiration := 0 + stEmpty.mc.config.ttl, hitCount := 0 }) ∧
    ((cachedChat errClient "p" stEmpty 0 [] [] "m").1 = .error (.generic "down") ∧
      (cachedChat errClient "p" stEmpty 0 [] [] "m").2.calls = stEmpty.calls + 1 ∧
      (cachedChat errClient "p" stEmpty 0 [] [] "m").2.mc.cache =
        (stEmpty.mc.Get 0 (generateCacheKey [] [] "m" "p")).2.cache) ∧
    ((cachedChat okClient "p" (cachedChat okClient "p" stEmpty 0 [] [] "m").2
        2 [] [] "m").1 = .ok (asstMsg "resp" []) ∧
      (cachedChat okClient "p" (cachedChat okClient "p" stEmpty 0 [] [] "m").2
        2 [] [] "m").2.calls =
        (cachedChat okClient "p" stEmpty 0 [] [] "m").2.calls) :=
  cached_chat_semantics okClient "p" stWithKey 0 [] [] "m" (entryAt "r" 0)
    (by simp [stWithKey, CacheMap.get])
    (by decide)
    okClient "p" stEmpty 0 2 [] [] "m" (asstMsg "resp" [])
    rfl rfl (by decide)
    errClient "p" stEmpty 0 [] [] "m" (.generic "down")
    rfl rfl

/-! ### Serialization injectivity toolkit -/

/-- Helper: characters with equal code points are equal. -/
theorem char_toNat_inj (c c' : Char) (h : c.toNat = c'.toNat) : c = c' := by
  rw [← Char.ofNat_toNat c, ← Char.ofNat_toNat c', h]

/-- Helper: the decimal digit characters. -/
theorem hexDigitChar_toNat_digit (d : Nat) (h : d < 10) :
    (hexDigitChar d).toNat = 48 + d := by
  unfold hexDigitChar
  rw [if_pos h]
  interval_cases d <;> decide

/-- Helper: hex digit characters are injective below 16. -/
theorem hexDigitChar_inj (a b : Nat) (ha : a < 16) (hb : b < 16)
    (h : hexDigitChar a = hexDigitChar b) : a = b := by
  have key : ∀ x y : Fin 16, hexDigitChar x = hexDigitChar y → x = y := by decide
  have h2 := key ⟨a, ha⟩ ⟨b, hb⟩ h
  exact congrArg Fin.val h2

/-- Helper: `\uXXXX` escapes are self-delimiting and injective below
`0x10000`. -/
theorem uHex4_append_inj (m n : Nat) (hm : m < 65536) (hn : n < 65536)
    (x y : List Char) (h : uHex4 m ++ x = uHex4 n ++ y) : m = n ∧ x = y := by
  simp only [uHex4, List.cons_append, List.cons.injEq, true_and] at h
  obtain ⟨h1, h2, h3, h4, hxy⟩ := h
  have e1 := hexDigitChar_inj _ _ (Nat.mod_lt _ (by omega)) (Nat.mod_lt _ (by omega)) h1
  have e2 := hexDigitChar_inj _ _ (Nat.mod_lt _ (by omega)) (Nat.mod_lt _ (by omega)) h2
  have e3 := hexDigitChar_inj _ _ (Nat.mod_lt _ (by omega)) (Nat.mod_lt _ (by omega)) h3
  have e4 := hexDigitChar_inj _ _ (Nat.mod_lt _ (by omega)) (Nat.mod_lt _ (by omega)) h4
  exact ⟨by omega, hxy⟩

/-- Helper: decimal renderings are nonempty and all digits. -/
theorem natDigits_facts (n : Nat) :
    natDigits n ≠ [] ∧ ∀ c ∈ natDigits n, 48 ≤ c.toNat ∧ c.toNat ≤ 57 := by
  induction n using Nat.strong_induction_on with
  | _ n ih =>
      unfold natDigits
      split
      · rename_i h
        refine ⟨by simp, ?_⟩
        intro c hc
        simp only [List.mem_singleton] at hc
        subst hc
        have := hexDigitChar_toNat_digit n h
        omega
      · rename_i h
        have hdiv : n / 10 < n := by omega
        obtain ⟨hne, hmem⟩ := ih (n / 10) hdiv
        refine ⟨by simp, ?_⟩
        intro c hc
        rcases List.mem_append.mp hc with hc | hc
        · exact hmem c hc
        · simp only [List.mem_singleton] at hc
          subst hc
          have := hexDigitChar_toNat_digit (n % 10) (Nat.mod_lt _ (by omega))
          omega

/-- Helper: `digitsToNat` inverts `natDigits`. -/
theorem digitsToNat_natDigits (n : Nat) : digitsToNat (natDigits n) = n := by
  induction n using Nat.strong_induction_on with
  | _ n ih =>
      unfold natDigits
      split
      · rename_i h
        simp only [digitsToNat, List.foldl_cons, List.foldl_nil]
        rw [hexDigitChar_toNat_digit n h]
        omega
      · rename_i h
        have hdiv : n / 10 < n := by omega
        have ihv := ih (n / 10) hdiv
        unfold digitsToNat at ihv ⊢
        rw [List.foldl_append, ihv]
        simp only [List.foldl_cons, List.foldl_nil]
        rw [hexDigitChar_toNat_digit (n % 10) (Nat.mod_lt _ (by omega))]
        omega

/-- Helper: decimal renderings are injective. -/
theorem natDigits_inj (a b : Nat) (h : natDigits a = natDigits b) : a = b := by
  have ha := digitsToNat_natDigits a
  rw [h, digitsToNat_natDigits] at ha
  omega

/-- Helper: a digit run followed by a non-digit is self-delimiting. -/
theorem digits_append_inj :
    ∀ (A B r r' : List Char),
      (∀ c ∈ A, 48 ≤ c.toNat ∧ c.toNat ≤ 57) →
      (∀ c ∈ B, 48 ≤ c.toNat ∧ c.toNat ≤ 57) →
      noDigitHead r → noDigitHead r' → A ++ r = B ++ r' → A = B ∧ r = r'
  | [], [], r, r', _, _, _, _, h => ⟨rfl, by simpa using h⟩
  | [], b :: B, r, r', _, hB, hr, _, h => by
      simp only [List.nil_append, List.cons_append] at h
      subst h
      have hb := hB b (List.mem_cons_self _ _)
      simp only [noDigitHead] at hr
      omega
  | a :: A, [], r, r', hA, _, _, hr', h => by
      simp only [List.nil_append, List.cons_append] at h
      have ha := hA a (List.mem_cons_self _ _)
      rw [← h] at hr'
      simp only [noDigitHead] at hr'
      omega
  | a :: A, b :: B, r, r', hA, hB, hr, hr', h => by
      simp only [List.cons_append, List.cons.injEq] at h
      obtain ⟨hab, h⟩ := h
      obtain ⟨h1, h2⟩ := digits_append_inj A B r r'
        (fun c hc => hA c (List.mem_cons_of_mem _ hc))
        (fun c hc => hB c (List.mem_cons_of_mem _ hc)) hr hr' h
      exact ⟨by rw [hab, h1], h2⟩

/-- Helper: rendered integers followed by non-digits are
self-delimiting and injective. -/
theorem intChars_append_inj (i j : Int) (r r' : List Char)
    (hr : noDigitHead r) (hr' : noDigitHead r')
    (h : intChars i ++ r = intChars j ++ r') : i = j ∧ r = r' := by
  unfold intChars at h
  split_ifs at h with hi hj hj
  · simp only [List.cons_append, List.cons.injEq, true_and] at h
    obtain ⟨h1, h2⟩ := digits_append_inj _ _ _ _
      (natDigits_facts (-i).toNat).2 (natDigits_facts (-j).toNat).2 hr hr' h
    have := natDigits_inj _ _ h1
    exact ⟨by omega, h2⟩
  · exfalso
    rcases hd : natDigits j.toNat with _ | ⟨c, t⟩
    · exact (natDigits_facts j.toNat).1 hd
    · rw [hd] at h
      simp only [List.cons_append, List.cons.injEq] at h
      have hc := (natDigits_facts j.toNat).2 c (by rw [hd]; exact List.mem_cons_self _ _)
      have h45 : ('-' : Char).toNat = 45 := by decide
      have := congrArg Char.toNat h.1
      omega
  · exfalso
    rcases hd : natDigits i.toNat with _ | ⟨c, t⟩
    · exact (natDigits_facts i.toNat).1 hd
    · rw [hd] at h
      simp only [List.cons_append, List.cons.injEq] at h
      have hc := (natDigits_facts i.toNat).2 c (by rw [hd]; exact List.mem_cons_self _ _)
      have h45 : ('-' : Char).toNat = 45 := by decide
      have := congrArg Char.toNat h.1
      omega
  · obtain ⟨h1, h2⟩ := digits_append_inj _ _ _ _
      (natDigits_facts i.toNat).2 (natDigits_facts j.toNat).2 hr hr' h
    have := natDigits_inj _ _ h1
    exact ⟨by omega, h2⟩

/-- Helper: exhaustive classification of `escapeChar`'s output. -/
theorem escapeChar_cases (c : Char) :
    (escapeChar c = [c] ∧ 32 ≤ c.toNat ∧ c.toNat ≠ 34 ∧ c.toNat ≠ 92 ∧
      c.toNat ≠ 60 ∧ c.toNat ≠ 62 ∧ c.toNat ≠ 38 ∧
      c.toNat ≠ 8232 ∧ c.toNat ≠ 8233) ∨
    (escapeChar c = ['\\', '"'] ∧ c = '"') ∨
    (escapeChar c = ['\\', '\\'] ∧ c = '\\') ∨
    (escapeChar c = ['\\', 'n'] ∧ c = '\n') ∨
    (escapeChar c = ['\\', 'r'] ∧ c = '\r') ∨
    (escapeChar c = ['\\', 't'] ∧ c = '\t') ∨
    (escapeChar c = uHex4 c.toNat ∧ c.toNat < 65536) := by
  by_cases h1 : c = '"'
  · refine Or.inr (Or.inl ⟨?_, h1⟩)
    unfold escapeChar
    rw [if_pos h1]
  by_cases h2 : c = '\\'
  · refine Or.inr (Or.inr (Or.inl ⟨?_, h2⟩))
    unfold escapeChar
    rw [if_neg h1, if_pos h2]
  by_cases h3 : c = '\n'
  · refine Or.inr (Or.inr (Or.inr (Or.inl ⟨?_, h3⟩)))
    unfold escapeChar
    rw [if_neg h1, if_neg h2, if_pos h3]
  by_cases h4 : c = '\r'
  · refine Or.inr (Or.inr (Or.inr (Or.inr (Or.inl ⟨?_, h4⟩))))
    unfold escapeChar
    rw [if_neg h1, if_neg h2, if_neg h3, if_pos h4]
  by_cases h5 : c = '\t'
  · refine Or.inr (Or.inr (Or.inr (Or.inr (Or.inr (Or.inl ⟨?_, h5⟩)))))
    unfold escapeChar
    rw [if_neg h1, if_neg h2, if_neg h3, if_neg h4, if_pos h5]
  by_cases h6 : c.toNat < 32
  · refine Or.inr (Or.inr (Or.inr (Or.inr (Or.inr (Or.inr ⟨?_, by omega⟩)))))
    unfold escapeChar
    rw [if_neg h1, if_neg h2, if_neg h3, if_neg h4, if_neg h5, if_pos h6]
  by_cases h7 : c = '<'
  · refine Or.inr (Or.inr (Or.inr (Or.inr (Or.inr (Or.inr ⟨?_, ?_⟩)))))
    · unfold escapeChar
      rw [if_neg h1, if_neg h2, if_neg h3, if_neg h4, if_neg h5, if_neg h6, if_pos h7]
    · subst h7
      decide
  by_cases h8 : c = '>'
  · refine Or.inr (Or.inr (Or.inr (Or.inr (Or.inr (Or.inr ⟨?_, ?_⟩)))))
    · unfold escapeChar
      rw [if_neg h1, if_neg h2, if_neg h3, if_neg h4, if_neg h5, if_neg h6, if_neg h7,
        if_pos h8]
    · subst h8
      decide
  by_cases h9 : c = '&'
  · refine Or.inr (Or.inr (Or.inr (Or.inr (Or.inr (Or.inr ⟨?_, ?_⟩)))))
    · unfold escapeChar
      rw [if_neg h1, if_neg h2, if_neg h3, if_neg h4, if_neg h5, if_neg h6, if_neg h7,
        if_neg h8, if_pos h9]
    · subst h9
      decide
  by_cases h10 : c.toNat = 8232
  · refine Or.inr (Or.inr (Or.inr (Or.inr (Or.inr (Or.inr ⟨?_, by omega⟩)))))
    unfold escapeChar
    rw [if_neg h1, if_neg h2, if_neg h3, if_neg h4, if_neg h5, if_neg h6, if_neg h7,
      if_neg h8, if_neg h9, if_pos h10]
  by_cases h11 : c.toNat = 8233
  · refine Or.inr (Or.inr (Or.inr (Or.inr (Or.inr (Or.inr ⟨?_, by omega⟩)))))
    unfold escapeChar
    rw [if_neg h1, if_neg h2, if_neg h3, if_neg h4, if_neg h5, if_neg h6, if_neg h7,
      if_neg h8, if_neg h9, if_neg h10, if_pos h11]
  refine Or.inl ⟨?_, by omega, ?_, ?_, ?_, ?_, ?_, h10, h11⟩
  · unfold escapeChar
    rw [if_neg h1, if_neg h2, if_neg h3, if_neg h4, if_neg h5, if_neg h6, if_neg h7,
      if_neg h8, if_neg h9, if_neg h10, if_neg h11]
  · exact fun h => h1 (char_toNat_inj c '"' (by rw [h]; decide))
  · exact fun h => h2 (char_toNat_inj c '\\' (by rw [h]; decide))
  · exact fun h => h7 (char_toNat_inj c '<' (by rw [h]; decide))
  · exact fun h => h8 (char_toNat_inj c '>' (by rw [h]; decide))
  · exact fun h => h9 (char_toNat_inj c '&' (by rw [h]; decide))

/-- Helper: `hexVal` inverts `hexDigitChar` below 16. -/
theorem hexVal_hexDigitChar (d : Nat) (h : d < 16) :
    hexVal (hexDigitChar d) = d := by
  interval_cases d <;> decide

/-- Helper: decoding one escaped character recovers it. -/
theorem unescapeStep_escapeChar (c : Char) (t : List Char) :
    unescapeStep (escapeChar c ++ t) = some (c, t) := by
  rcases escapeChar_cases c with hc | hc | hc | hc | hc | hc | hc
  · obtain ⟨he, h32, h34, h92, -, -, -, -, -⟩ := hc
    rw [he]
    have hq : ¬ c = '"' := fun h => h34 (by rw [h]; decide)
    have hb : ¬ c = '\\' := fun h => h92 (by rw [h]; decide)
    simp only [List.cons_append, List.nil_append, unescapeStep, if_neg hq, if_neg hb]
  · rw [hc.1, hc.2]
    rfl
  · rw [hc.1, hc.2]
    rfl
  · rw [hc.1, hc.2]
    rfl
  · rw [hc.1, hc.2]
    rfl
  · rw [hc.1, hc.2]
    rfl
  · obtain ⟨he, hlt⟩ := hc
    rw [he]
    have e1 := hexVal_hexDigitChar (c.toNat / 4096 % 16) (Nat.mod_lt _ (by omega))
    have e2 := hexVal_hexDigitChar (c.toNat / 256 % 16) (Nat.mod_lt _ (by omega))
    have e3 := hexVal_hexDigitChar (c.toNat / 16 % 16) (Nat.mod_lt _ (by omega))
    have e4 := hexVal_hexDigitChar (c.toNat % 16) (Nat.mod_lt _ (by omega))
    have hred : unescapeStep (uHex4 c.toNat ++ t) =
        some (Char.ofNat
          (4096 * hexVal (hexDigitChar (c.toNat / 4096 % 16)) +
            256 * hexVal (hexDigitChar (c.toNat / 256 % 16)) +
            16 * hexVal (hexDigitChar (c.toNat / 16 % 16)) +
            hexVal (hexDigitChar (c.toNat % 16))), t) := rfl
    rw [hred, e1, e2, e3, e4]
    have hsum : 4096 * (c.toNat / 4096 % 16) + 256 * (c.toNat / 256 % 16) +
        16 * (c.toNat / 16 % 16) + c.toNat % 16 = c.toNat := by omega
    rw [hsum, Char.ofNat_toNat]

/-- Helper: an escaped character never begins with a quote. -/
theorem escapeChar_head_ne_quote (c : Char) :
    ∃ d t0, escapeChar c = d :: t0 ∧ d ≠ '"' := by
  rcases escapeChar_cases c with hc | hc | hc | hc | hc | hc | hc
  · exact ⟨c, [], hc.1, fun h => hc.2.2.1 (by rw [h]; decide)⟩
  · exact ⟨'\\', _, hc.1, by decide⟩
  · exact ⟨'\\', _, hc.1, by decide⟩
  · exact ⟨'\\', _, hc.1, by decide⟩
  · exact ⟨'\\', _, hc.1, by decide⟩
  · exact ⟨'\\', _, hc.1, by decide⟩
  · exact ⟨'\\', _, by rw [hc.1]; rfl, by decide⟩

/-- Helper: rebuilding a string from its characters. -/
theorem stringMk_toList (s : String) : String.mk s.toList = s := by
  cases s
  rfl

/-- Helper: the string-body decoder inverts the escaper. -/
theorem parseStr_escape :
    ∀ (l : List Char) (fuel : Nat) (r : List Char), l.length < fuel →
      parseStr fuel ((l.map escapeChar).flatten ++ '"' :: r) = some (l, r)
  | [], fuel, r, hf => by
      cases fuel with
      | zero => omega
      | succ fuel => rfl
  | c :: cs, fuel, r, hf => by
      cases fuel with
      | zero => omega
      | succ fuel =>
          obtain ⟨d, t0, hd, hdq⟩ := escapeChar_head_ne_quote c
          simp only [List.map_cons, List.flatten_cons, List.append_assoc]
          rw [hd]
          simp only [List.cons_append, parseStr]
          rw [if_neg hdq, ← List.cons_append, ← hd, unescapeStep_escapeChar]
          show (match parseStr fuel ((List.map escapeChar cs).flatten ++ '"' :: r) with
            | none => none
            | some (ds, r1) => some (c :: ds, r1)) = some (c :: cs, r)
          simp only [parseStr_escape cs fuel r (by simp at hf; omega)]

/-- Helper: `takeDigits` splits an all-digit prefix off a non-digit
continuation. -/
theorem takeDigits_append :
    ∀ (A r : List Char), (∀ c ∈ A, 48 ≤ c.toNat ∧ c.toNat ≤ 57) →
      noDigitHead r → takeDigits (A ++ r) = (A, r)
  | [], [], _, _ => rfl
  | [], c :: t, _, hr => by
      simp only [noDigitHead] at hr
      simp only [List.nil_append, takeDigits]
      rw [if_neg (by omega)]
  | a :: A, r, hA, hr => by
      have ha := hA a (List.mem_cons_self _ _)
      simp only [List.cons_append, takeDigits]
      rw [if_pos ha, List.append_eq,
        takeDigits_append A r (fun c hc => hA c (List.mem_cons_of_mem _ hc)) hr]

/-- Helper: a digit is none of the value-leading key characters. -/
theorem digit_ne_keychars (c : Char) (h : 48 ≤ c.toNat ∧ c.toNat ≤ 57) :
    c ≠ '-' ∧ c ≠ lbraceChar ∧ c ≠ 'n' ∧ c ≠ '"' ∧ c ≠ 't' ∧ c ≠ '[' ∧ c ≠ 'f' := by
  refine ⟨?_, ?_, ?_, ⟨?_, ?_, ?_, ?_⟩⟩ <;>
    exact fun he => by rw [he] at h; exact absurd h (by decide)

/-- Helper: a rendered value starts with a character that is neither a
closing bracket nor a closing brace. -/
theorem encVal_head_ne (v : Json) :
    ∃ c t, encVal v = c :: t ∧ c ≠ ']' ∧ c ≠ rbraceChar := by
  cases v with
  | null => exact ⟨'n', _, rfl, by decide, by decide⟩
  | bool b => cases b
              · exact ⟨'f', _, rfl, by decide, by decide⟩
              · exact ⟨'t', _, rfl, by decide, by decide⟩
  | num i =>
      by_cases hi : i < 0
      · refine ⟨'-', natDigits (-i).toNat, ?_, by decide, by decide⟩
        simp only [encVal, intChars, if_pos hi]
      · rcases hd : natDigits i.toNat with _ | ⟨c, t⟩
        · exact absurd hd (natDigits_facts i.toNat).1
        · have hc := (natDigits_facts i.toNat).2 c (by rw [hd]; exact List.mem_cons_self _ _)
          refine ⟨c, t, by simp only [encVal, intChars, if_neg hi, hd], ?_, ?_⟩
          · exact fun he => by rw [he] at hc; exact absurd hc (by decide)
          · exact fun he => by rw [he] at hc; exact absurd hc (by decide)
  | str s0 => exact ⟨'"', _, rfl, by decide, by decide⟩
  | arr xs => exact ⟨'[', _, rfl, by decide, by decide⟩
  | obj fs => exact ⟨lbraceChar, _, rfl, by decide, by decide⟩

/-- Helper: every value needs at least one unit of fuel. -/
theorem jsize_pos (v : Json) : 1 ≤ jsize v := by
  cases v <;> simp [jsize]

/-- Helper: every element list needs at least one unit of fuel. -/
theorem jsizeL_pos (xs : List Json) : 1 ≤ jsizeL xs := by
  cases xs <;> simp [jsizeL]

/-- Helper: every field list needs at least one unit of fuel. -/
theorem jsizeF_pos (fs : List (String × Json)) : 1 ≤ jsizeF fs := by
  cases fs with
  | nil => simp [jsizeF]
  | cons f fs => obtain ⟨k, v⟩ := f; simp [jsizeF]

/-- Helper: decoding a negative number rendering. -/
theorem parseVal_neg_num (fuel : Nat) (A r : List Char)
    (hA : ∀ c ∈ A, 48 ≤ c.toNat ∧ c.toNat ≤ 57) (hne : A ≠ [])
    (hr : noDigitHead r) :
    parseVal (fuel + 1) ('-' :: (A ++ r)) =
      some (.num (-(digitsToNat A : Int)), r) := by
  have hred : parseVal (fuel + 1) ('-' :: (A ++ r)) =
      (if (takeDigits (A ++ r)).1 = [] then none
       else some (.num (-(digitsToNat (takeDigits (A ++ r)).1 : Int)),
         (takeDigits (A ++ r)).2)) := rfl
  rw [hred, takeDigits_append A r hA hr]
  show (if A = [] then none else some (Json.num (-(digitsToNat A : Int)), r)) =
    some (Json.num (-(digitsToNat A : Int)), r)
  rw [if_neg hne]

/-- Helper: decoding a nonnegative number rendering. -/
theorem parseVal_pos_num (fuel : Nat) (a : Char) (A r : List Char)
    (hA : ∀ c ∈ a :: A, 48 ≤ c.toNat ∧ c.toNat ≤ 57)
    (hr : noDigitHead r) :
    parseVal (fuel + 1) ((a :: A) ++ r) =
      some (.num (digitsToNat (a :: A) : Int), r) := by
  have ha := hA a (List.mem_cons_self _ _)
  obtain ⟨hminus, hbrace, hn, hq, ht, hbr, hf2⟩ := digit_ne_keychars a ha
  simp only [List.cons_append, parseVal]
  rw [if_neg hn, if_neg ht, if_neg hf2, if_neg hq, if_neg hbr, if_neg hbrace,
    if_neg hminus, if_pos ha]
  show some (Json.num (digitsToNat (takeDigits (a :: (A ++ r))).1 : Int),
    (takeDigits (a :: (A ++ r))).2) = some (Json.num (digitsToNat (a :: A) : Int), r)
  rw [← List.cons_append, takeDigits_append (a :: A) r hA hr]

mutual

/-- Helper: the value decoder inverts the renderer. -/
theorem parseVal_encVal :
    ∀ (fuel : Nat) (v : Json) (r : List Char), jsize v ≤ fuel → noDigitHead r →
      parseVal fuel (encVal v ++ r) = some (v, r)
  | 0, v, _, hf, _ => by
      exfalso
      have := jsize_pos v
      omega
  | fuel + 1, .null, r, _, _ => rfl
  | fuel + 1, .bool true, r, _, _ => rfl
  | fuel + 1, .bool false, r, _, _ => rfl
  | fuel + 1, .str s, r, hf, _ => by
      have happ : encVal (.str s) ++ r =
          '"' :: ((s.toList.map escapeChar).flatten ++ '"' :: r) := by
        simp [encVal, encStr]
      rw [happ]
      have hred : parseVal (fuel + 1)
          ('"' :: ((s.toList.map escapeChar).flatten ++ '"' :: r)) =
          (match parseStr fuel ((s.toList.map escapeChar).flatten ++ '"' :: r) with
           | none => none
           | some (ds, rem) => some (.str (String.mk ds), rem)) := rfl
      rw [hred, parseStr_escape s.toList fuel r (by simp only [jsize] at hf; omega)]
      show some (Json.str (String.mk s.toList), r) = some (Json.str s, r)
      rw [stringMk_toList]
  | fuel + 1, .num i, r, hf, hr => by
      by_cases hi : i < 0
      · have he : encVal (.num i) = '-' :: natDigits (-i).toNat := by
          simp only [encVal, intChars, if_pos hi]
        rw [he, List.cons_append,
          parseVal_neg_num fuel (natDigits (-i).toNat) r
            (natDigits_facts _).2 (natDigits_facts _).1 hr,
          digitsToNat_natDigits]
        have hcast : (((-i).toNat : Nat) : Int) = -i := Int.toNat_of_nonneg (by omega)
        rw [hcast, neg_neg]
      · have he : encVal (.num i) = natDigits i.toNat := by
          simp only [encVal, intChars, if_neg hi]
        rcases hd : natDigits i.toNat with _ | ⟨a, A⟩
        · exact absurd hd (natDigits_facts i.toNat).1
        · have hA : ∀ c ∈ a :: A, 48 ≤ c.toNat ∧ c.toNat ≤ 57 := by
            rw [← hd]
            exact (natDigits_facts i.toNat).2
          rw [he, hd, parseVal_pos_num fuel a A r hA hr, ← hd, digitsToNat_natDigits]
          have hcast : ((i.toNat : Nat) : Int) = i := Int.toNat_of_nonneg (by omega)
          rw [hcast]
  | fuel + 1, .arr xs, r, hf, _ => by
      have happ : encVal (.arr xs) ++ r = '[' :: (encItems xs ++ ']' :: r) := by
        simp [encVal]
      rw [happ]
      have hred : parseVal (fuel + 1) ('[' :: (encItems xs ++ ']' :: r)) =
          (match parseItems fuel (encItems xs ++ ']' :: r) with
           | none => none
           | some (vs, rem) => some (.arr vs, rem)) := rfl
      rw [hred, parseItems_encItems fuel xs r (by simp only [jsize] at hf; omega)]
  | fuel + 1, .obj fs, r, hf, _ => by
      have happ : encVal (.obj fs) ++ r =
          lbraceChar :: (encFields fs ++ rbraceChar :: r) := by
        simp [encVal]
      rw [happ]
      have hred : parseVal (fuel + 1)
          (lbraceChar :: (encFields fs ++ rbraceChar :: r)) =
          (match parseFields fuel (encFields fs ++ rbraceChar :: r) with
           | none => none
           | some (gs, rem) => some (.obj gs, rem)) := rfl
      rw [hred, parseFields_encFields fuel fs r (by simp only [jsize] at hf; omega)]

/-- Helper: the element-list decoder inverts the renderer. -/
theorem parseItems_encItems :
    ∀ (fuel : Nat) (xs : List Json) (r : List Char), jsizeL xs ≤ fuel →
      parseItems fuel (encItems xs ++ ']' :: r) = some (xs, r)
  | 0, xs, _, hf => by
      exfalso
      have := jsizeL_pos xs
      omega
  | fuel + 1, [], r, _ => rfl
  | fuel + 1, [x], r, hf => by
      obtain ⟨c0, t0, he, hne1, hne2⟩ := encVal_head_ne x
      have happ : encItems [x] ++ ']' :: r = c0 :: (t0 ++ ']' :: r) := by
        simp only [encItems, he, List.cons_append]
      rw [happ]
      simp only [parseItems]
      rw [if_neg hne1, ← List.cons_append, ← he,
        parseVal_encVal fuel x (']' :: r)
          (by simp only [jsizeL] at hf; omega) (Or.inr (by decide))]
      rfl
  | fuel + 1, x :: y :: ys, r, hf => by
      obtain ⟨c0, t0, he, hne1, hne2⟩ := encVal_head_ne x
      have happ : encItems (x :: y :: ys) ++ ']' :: r =
          c0 :: (t0 ++ (',' :: (encItems (y :: ys) ++ ']' :: r))) := by
        simp only [encItems, he, List.cons_append, List.append_assoc]
      rw [happ]
      simp only [parseItems]
      rw [if_neg hne1, ← List.cons_append, ← he,
        parseVal_encVal fuel x (',' :: (encItems (y :: ys) ++ ']' :: r))
          (by simp only [jsizeL] at hf; omega) (Or.inl (by decide))]
      show (match parseItems fuel (encItems (y :: ys) ++ ']' :: r) with
        | none => none
        | some (vs, r2) => some (x :: vs, r2)) = some (x :: y :: ys, r)
      rw [parseItems_encItems fuel (y :: ys) r
        (by simp only [jsizeL] at hf ⊢; have := jsize_pos x; omega)]

/-- Helper: the field-list decoder inverts the renderer. -/
theorem parseFields_encFields :
    ∀ (fuel : Nat) (fs : List (String × Json)) (r : List Char), jsizeF fs ≤ fuel →
      parseFields fuel (encFields fs ++ rbraceChar :: r) = some (fs, r)
  | 0, fs, _, hf => by
      exfalso
      have := jsizeF_pos fs
      omega
  | fuel + 1, [], r, _ => rfl
  | fuel + 1, [(k, v)], r, hf => by
      have happ : encFields [(k, v)] ++ rbraceChar :: r =
          '"' :: ((k.toList.map escapeChar).flatten ++
            '"' :: (':' :: (encVal v ++ rbraceChar :: r))) := by
        simp only [encFields, encStr, List.cons_append, List.nil_append,
          List.append_assoc]
      rw [happ]
      simp only [parseFields]
      rw [if_pos trivial,
        parseStr_escape k.toList fuel (':' :: (encVal v ++ rbraceChar :: r))
          (by simp only [jsizeF] at hf; have := jsize_pos v; omega)]
      show (match parseVal fuel (encVal v ++ rbraceChar :: r) with
        | none => none
        | some (v2, rem2) =>
            match rem2 with
            | [] => none
            | d :: r1 =>
                if d = rbraceChar then some ([(String.mk k.toList, v2)], r1)
                else if d = ',' then
                  match parseFields fuel r1 with
                  | none => none
                  | some (fs2, r2) => some ((String.mk k.toList, v2) :: fs2, r2)
                else none) = some ([(k, v)], r)
      rw [stringMk_toList,
        parseVal_encVal fuel v (rbraceChar :: r)
          (by simp only [jsizeF] at hf; omega) (Or.inr (by decide))]
      rfl
  | fuel + 1, (k, v) :: (k2, v2) :: fs, r, hf => by
      have happ : encFields ((k, v) :: (k2, v2) :: fs) ++ rbraceChar :: r =
          '"' :: ((k.toList.map escapeChar).flatten ++
            '"' :: (':' :: (encVal v ++
              ',' :: (encFields ((k2, v2) :: fs) ++ rbraceChar :: r)))) := by
        simp only [encFields, encStr, List.cons_append, List.nil_append,
          List.append_assoc]
      rw [happ]
      simp only [parseFields]
      rw [if_pos trivial,
        parseStr_escape k.toList fuel
          (':' :: (encVal v ++ ',' :: (encFields ((k2, v2) :: fs) ++ rbraceChar :: r)))
          (by simp only [jsizeF] at hf
              have := jsize_pos v
              have := jsizeF_pos ((k2, v2) :: fs)
              omega)]
      show (match parseVal fuel
          (encVal v ++ ',' :: (encFields ((k2, v2) :: fs) ++ rbraceChar :: r)) with
        | none => none
        | some (w, rem2) =>
            match rem2 with
            | [] => none
            | d :: r1 =>
                if d = rbraceChar then some ([(String.mk k.toList, w)], r1)
                else if d = ',' then
                  match parseFields fuel r1 with
                  | none => none
                  | some (fs2, r2) => some ((String.mk k.toList, w) :: fs2, r2)
                else none) = some ((k, v) :: (k2, v2) :: fs, r)
      rw [stringMk_toList,
        parseVal_encVal fuel v
          (',' :: (encFields ((k2, v2) :: fs) ++ rbraceChar :: r))
          (by simp only [jsizeF] at hf
              have := jsizeF_pos ((k2, v2) :: fs)
              omega) (Or.inl (by decide))]
      show (match parseFields fuel (encFields ((k2, v2) :: fs) ++ rbraceChar :: r) with
        | none => none
        | some (fs2, r2) => some ((k, v) :: fs2, r2)) =
          some ((k, v) :: (k2, v2) :: fs, r)
      rw [parseFields_encFields fuel ((k2, v2) :: fs) r
        (by simp only [jsizeF] at hf ⊢; have := jsize_pos v; omega)]

end

/-- Helper: the serialization of a `Json` value determines it. -/
theorem encVal_inj (v w : Json) (h : encVal v = encVal w) : v = w := by
  have h1 := parseVal_encVal (jsize v + jsize w) v [] (by omega) trivial
  have h2 := parseVal_encVal (jsize v + jsize w) w [] (by omega) trivial
  rw [List.append_nil] at h1 h2
  rw [h, h2] at h1
  have h3 := Option.some.inj h1
  injection h3 with h4 h5
  exact h4.symm

/-- Helper: decoding a serialized tool call recovers it. -/
theorem toolCallOfJson_jsonOfToolCall (tc : ToolCall) :
    toolCallOfJson (jsonOfToolCall tc) = some tc := rfl

/-- Helper: decoding a serialized tool recovers it. -/
theorem toolOfJson_jsonOfTool (t : ToolS) :
    toolOfJson (jsonOfTool t) = some t := rfl

/-- Helper: the `mapM` worker decodes a serialized tool-call list onto
its accumulator. -/
theorem mapM_loop_toolCallOfJson (xs acc : List ToolCall) :
    List.mapM.loop toolCallOfJson (xs.map jsonOfToolCall) acc =
      some (acc.reverse ++ xs) := by
  induction xs generalizing acc with
  | nil => simp [List.mapM.loop]
  | cons x xs ih =>
      simp [List.mapM.loop, toolCallOfJson_jsonOfToolCall x, ih]

/-- Helper: the `mapM` worker on a decoded cons cell, in the shape left
by simplification. -/
theorem mapM_loop_toolCallOfJson_cons (x : ToolCall) (xs acc : List ToolCall) :
    List.mapM.loop toolCallOfJson (jsonOfToolCall x :: xs.map jsonOfToolCall) acc =
      some (acc.reverse ++ x :: xs) := by
  have h := mapM_loop_toolCallOfJson (x :: xs) acc
  simpa [List.map_cons] using h

/-- Helper: decoding a serialized tool-call list recovers it. -/
theorem mapM_toolCallOfJson (xs : List ToolCall) :
    (xs.map jsonOfToolCall).mapM toolCallOfJson = some xs := by
  simp [List.mapM, mapM_loop_toolCallOfJson]

/-- Helper: decoding a serialized message recovers it, including the
zero values of omitted `omitempty` fields. -/
theorem msgOfJson_jsonOfMessage (m : LLMMessage) :
    msgOfJson (jsonOfMessage m) = some m := by
  obtain ⟨role, content, name, toolCalls, toolCallID, metadata⟩ := m
  rcases toolCalls with _ | ⟨tc0, tcs⟩ <;>
    rcases metadata with _ | ⟨md0, mds⟩ <;>
      by_cases hn : name = "" <;>
        by_cases hid : toolCallID = "" <;>
          simp [jsonOfMessage, msgOfJson, jlookup, hn, hid,
            mapM_loop_toolCallOfJson_cons, beq_iff_eq]

/-- Helper: serialization of a message is injective. -/
theorem jsonOfMessage_inj (a b : LLMMessage) (h : jsonOfMessage a = jsonOfMessage b) :
    a = b := by
  have ha := msgOfJson_jsonOfMessage a
  rw [h, msgOfJson_jsonOfMessage b] at ha
  exact (Option.some.inj ha).symm

/-- Helper: serialization of a tool is injective. -/
theorem jsonOfTool_inj (a b : ToolS) (h : jsonOfTool a = jsonOfTool b) : a = b := by
  have ha := toolOfJson_jsonOfTool a
  rw [h, toolOfJson_jsonOfTool b] at ha
  exact (Option.some.inj ha).symm

/-- C6: `generateCacheKey` hashes the `json.Marshal` serialization of
(messages, tools, model, provider); that serialization (the hash
pre-image) is injective, so — up to SHA-256 collisions, which the claim
excludes — two requests get the same cache key exactly when their
message lists (including order), tool lists, model identifiers and
provider names all coincide. -/
theorem generateCacheKey_inj (ms ms' : List LLMMessage) (ts ts' : List ToolS)
    (mo mo' p p' : String) :
    generateCacheKey ms ts mo p = generateCacheKey ms' ts' mo' p' ↔
      (ms = ms' ∧ ts = ts' ∧ mo = mo' ∧ p = p') := by
  constructor
  · intro h
    simp only [generateCacheKey] at h
    injection h with hl
    have hj := encVal_inj _ _ hl
    simp [cacheKeyJson] at hj
    obtain ⟨hm, ht, hmo, hp⟩ := hj
    refine ⟨?_, ?_, hmo, hp⟩
    · exact List.map_injective_iff.mpr (fun a b hab => jsonOfMessage_inj a b hab) hm
    · exact List.map_injective_iff.mpr (fun a b hab => jsonOfTool_inj a b hab) ht
  · rintro ⟨rfl, rfl, rfl, rfl⟩
    rfl

end Trage
